import Mathlib

set_option maxHeartbeats 1000000
set_option maxRecDepth 100000

namespace DAIDS

/-!
Shallow embedding of the DAIDS audit pipeline (URL safety and normalization,
crawler, chunker, scorer).  Definitions are translated from the TypeScript
source; behaviour of external libraries (the WHATWG URL parser, `fetch`, DNS,
cheerio) is modelled explicitly, with simplifications noted in comments.

JS strings are modelled as Lean `String`/`List Char`; the inputs of interest
are ASCII, where JS UTF-16 `.length` and Lean codepoint length agree.
-/

/-! ## JS string primitives -/

/-- ASCII lower-casing, the fragment of JS `toLowerCase` exercised here. -/
def asciiLower (c : Char) : Char :=
  if 'A' ≤ c ∧ c ≤ 'Z' then Char.ofNat (c.toNat + 32) else c

/-- JS `toLowerCase` (ASCII fragment). -/
def lowerStr (s : String) : String := ⟨s.data.map asciiLower⟩

/-- Boolean list-prefix test. -/
def listPrefix : List Char → List Char → Bool
  | [], _ => true
  | _ :: _, [] => false
  | a :: as, b :: bs => if a = b then listPrefix as bs else false

/-- Boolean contiguous-sublist test (JS `includes` / regex literal search). -/
def listInfix : List Char → List Char → Bool
  | n, [] => listPrefix n []
  | n, c :: t => listPrefix n (c :: t) || listInfix n t

/-- JS `String.prototype.startsWith`. -/
def jsStartsWith (s p : String) : Bool := listPrefix p.data s.data

/-- JS `String.prototype.endsWith`. -/
def jsEndsWith (s p : String) : Bool := listPrefix p.data.reverse s.data.reverse

/-- JS `String.prototype.includes`. -/
def jsIncludes (s sub : String) : Bool := listInfix sub.data s.data

/-- Case-insensitive substring test (models `/pat/i.test(s)` for literal `pat`). -/
def containsCI (s sub : String) : Bool :=
  listInfix (sub.data.map asciiLower) (s.data.map asciiLower)

/-- Case-insensitive prefix test (models `/^pat/i.test(s)` for literal `pat`). -/
def startsWithCI (s p : String) : Bool :=
  listPrefix (p.data.map asciiLower) (s.data.map asciiLower)

/-- JS `String.prototype.trim` on a char list (ASCII whitespace fragment). -/
def trimList (l : List Char) : List Char :=
  ((l.dropWhile Char.isWhitespace).reverse.dropWhile Char.isWhitespace).reverse

/-- JS `String.prototype.trim`. -/
def jsTrim (s : String) : String := ⟨trimList s.data⟩

/-- Split a char list at the first character satisfying `stop`; the second
component begins with that character (or is empty when none occurs). -/
def splitAtFirst (stop : Char → Bool) : List Char → List Char × List Char
  | [] => ([], [])
  | c :: t =>
    if stop c then ([], c :: t)
    else
      let p := splitAtFirst stop t
      (c :: p.1, p.2)

/-- Split on a separator character, keeping empty fields (JS `split(ch)`). -/
def splitOnAux (ch : Char) : List Char → List Char → List (List Char)
  | [], cur => [cur.reverse]
  | c :: t, cur => if c = ch then cur.reverse :: splitOnAux ch t [] else splitOnAux ch t (c :: cur)

def splitOnChar (ch : Char) (l : List Char) : List (List Char) := splitOnAux ch l []

/-- Join with `&` (the form-urlencoded query re-serialization, raw fragment). -/
def joinAmp : List (List Char) → List Char
  | [] => []
  | [x] => x
  | x :: y :: t => x ++ '&' :: joinAmp (y :: t)

/-! ## URL model

Models the WHATWG `URL` parser for absolute `scheme://authority/path?query#frag`
URLs as used by `url-utils.ts`.  Simplifications (none of which changes the
outcome of any claim, see the comments at the theorems):
* scheme and host are kept verbatim rather than lower-cased; the claims
  exercise lower-case URLs, and `isBlockedHost`/`isSSRFSafe` do their own
  lower-casing exactly where the source does;
* percent-encoding, IDNA and dot-segment normalization are not modelled;
* query pairs are kept raw instead of form-urlencoded re-serialized. -/

structure UrlModel where
  scheme : List Char
  host : List Char
  port : Option (List Char)
  path : List Char
  query : Option (List Char)
  fragment : Option (List Char)
deriving DecidableEq, Repr

def schemeCharOk (c : Char) : Bool := c.isAlpha || c.isDigit || c == '+' || c == '-' || c == '.'

def schemeOk : List Char → Bool
  | [] => false
  | c :: t => c.isAlpha && t.all schemeCharOk

def authStop (c : Char) : Bool := c == '/' || c == '?' || c == '#'

def pathStop (c : Char) : Bool := c == '?' || c == '#'

/-- Default ports of the special schemes (string comparison; the WHATWG parser
compares numerically, which differs only on non-canonical digit strings). -/
def defaultPort (scheme : List Char) : Option (List Char) :=
  if scheme = "http".data then some "80".data
  else if scheme = "https".data then some "443".data
  else if scheme = "ftp".data then some "21".data
  else if scheme = "ws".data then some "80".data
  else if scheme = "wss".data then some "443".data
  else none

/-- Drop the userinfo part of an authority: keep everything after the last `@`. -/
def afterLastAt (l : List Char) : List Char :=
  (l.reverse.takeWhile (fun c => !(c == '@'))).reverse

/-- Port suffix after a plain host (`""` or `":port"`). -/
def parsePortSuffix (host : List Char) : List Char → Option (List Char × Option (List Char))
  | [] => some (host, none)
  | ':' :: pr =>
    if pr = [] then some (host, none)
    else if pr.all Char.isDigit then some (host, some pr)
    else none
  | _ => none

/-- Port suffix after a bracketed host. -/
def parseBracketPort (host : List Char) : List Char → Option (List Char × Option (List Char))
  | [] => some (host, none)
  | ':' :: pr => if pr ≠ [] ∧ pr.all Char.isDigit then some (host, some pr) else none
  | _ => none

/-- What follows the opening bracket of a bracketed host. -/
def parseBracketRest (rest : List Char) : Option (List Char × Option (List Char)) :=
  match (splitAtFirst (· == ']') rest).2 with
  | ']' :: afterB =>
    if (splitAtFirst (· == ']') rest).1 = [] then none
    else parseBracketPort ('[' :: (splitAtFirst (· == ']') rest).1 ++ [']']) afterB
  | _ => none

/-- A plain (non-bracketed) `host[:port]`. -/
def parsePlainHostPort (hp : List Char) : Option (List Char × Option (List Char)) :=
  if (splitAtFirst (· == ':') hp).1 = [] then none
  else if (splitAtFirst (· == ':') hp).1.any (fun c => c == '[' || c == ']') then none
  else parsePortSuffix (splitAtFirst (· == ':') hp).1 (splitAtFirst (· == ':') hp).2

/-- Split `host[:port]`, handling bracketed IPv6 hosts. -/
def parseHostPort : List Char → Option (List Char × Option (List Char))
  | '[' :: rest => parseBracketRest rest
  | hp => parsePlainHostPort hp

/-- Split the path from what follows the authority (empty path serializes as
`/` for the special schemes). -/
def splitPathRest (rest3 : List Char) : List Char × List Char :=
  match rest3 with
  | '/' :: _ => splitAtFirst pathStop rest3
  | _ => (['/'], rest3)

/-- Split the query from what follows the path. -/
def splitQueryRest (rest4 : List Char) : Option (List Char) × List Char :=
  match rest4 with
  | '?' :: r => ((splitAtFirst (· == '#') r).1, (splitAtFirst (· == '#') r).2)
  | _ => (none, rest4)

def parseFragment (rest5 : List Char) : Option (List Char) :=
  match rest5 with
  | '#' :: f => some f
  | _ => none

/-- Parse path, query and fragment from what follows the authority. -/
def parsePathQF (scheme host : List Char) (port : Option (List Char)) (rest3 : List Char) :
    UrlModel :=
  let pq := splitPathRest rest3
  let q := splitQueryRest pq.2
  { scheme := scheme, host := host, port := port, path := pq.1, query := q.1,
    fragment := parseFragment q.2 }

/-- Remove an explicit default port, as the WHATWG parser does. -/
def stripDefaultPort (scheme : List Char) (port0 : Option (List Char)) : Option (List Char) :=
  match port0 with
  | some pr => if defaultPort scheme = some pr then none else some pr
  | none => none

def parseAuthorityRest (scheme rest2 : List Char) : Option UrlModel :=
  let a := splitAtFirst authStop rest2
  match parseHostPort (afterLastAt a.1) with
  | none => none
  | some (host, port0) => some (parsePathQF scheme host (stripDefaultPort scheme port0) a.2)

def parseUrl (l : List Char) : Option UrlModel :=
  let s := splitAtFirst (· == ':') l
  match s.2 with
  | ':' :: rest1 =>
    if schemeOk s.1 then
      match rest1 with
      | '/' :: '/' :: rest2 => parseAuthorityRest s.1 rest2
      | _ => none
    else none
  | _ => none

def portTail : Option (List Char) → List Char
  | some pr => ':' :: pr
  | none => []

def qTail : Option (List Char) → List Char
  | some q => '?' :: q
  | none => []

def fTail : Option (List Char) → List Char
  | some f => '#' :: f
  | none => []

def serializeUrl (u : UrlModel) : List Char :=
  u.scheme ++ [':', '/', '/'] ++ u.host ++ portTail u.port ++ u.path ++
    qTail u.query ++ fTail u.fragment

/-! ## `url-utils.ts`: normalizeUrl, isSameOrigin, getPathDepth, getSitemapUrls -/

/-- `URLSearchParams` field list of a raw query: split on `&`, empty fields are
ignored. -/
def queryComponents (q : List Char) : List (List Char) :=
  (splitOnChar '&' q).filter (fun c => decide (c ≠ []))

/-- The name of one `name=value` query field. -/
def componentKey (c : List Char) : List Char := (splitAtFirst (· == '=') c).1

/-- `paramsToRemove` in `normalizeUrl`. -/
def trackedParams : List (List Char) :=
  ["utm_source", "utm_medium", "utm_campaign", "utm_term", "utm_content", "ref", "source"].map
    String.data

/-- Effect of the seven `url.searchParams.delete(param)` calls followed by the
WHATWG update step (an empty pair list removes the `?` entirely). -/
def deleteTrackedQuery : Option (List Char) → Option (List Char)
  | none => none
  | some q =>
    let comps := (queryComponents q).filter (fun c => decide (componentKey c ∉ trackedParams))
    match comps with
    | [] => none
    | _ => some (joinAmp comps)

/-- `pathname.slice(0, -1)` applied when the path is a non-root path ending in
a single trailing slash — note only ONE slash is removed. -/
def stripTrailingSlash (p : List Char) : List Char :=
  if 1 < p.length ∧ p.getLast? = some '/' then p.dropLast else p

/-- The mutations `normalizeUrl` performs on a parsed URL object:
`url.hash = ""`, tracking-parameter deletion, then trailing-slash removal. -/
def nfUrl (u : UrlModel) : UrlModel :=
  let u1 : UrlModel := { u with fragment := none }
  let u2 : UrlModel := { u1 with query := deleteTrackedQuery u1.query }
  { u2 with path := stripTrailingSlash u2.path }

/-- `normalizeUrl(urlString)` (the base-less form: the crawler only ever feeds
it absolute URLs, since the extractor already resolved links against the page
URL). -/
def normalizeUrl (s : String) : Option String :=
  (parseUrl s.data).map (fun u => (⟨serializeUrl (nfUrl u)⟩ : String))

/-- `parsed.origin` comparison key: scheme, host (lower-cased as the WHATWG
serializer would) and port. -/
def urlOrigin (u : UrlModel) : List Char × List Char × Option (List Char) :=
  (u.scheme.map asciiLower, u.host.map asciiLower, u.port)

/-- `isSameOrigin(url1, url2)`. -/
def isSameOrigin (a b : String) : Bool :=
  match parseUrl a.data, parseUrl b.data with
  | some u, some v => decide (urlOrigin u = urlOrigin v)
  | _, _ => false

/-- `pathname.replace(/\/$/, "")`: drop one trailing slash. -/
def dropOneTrailingSlash (p : List Char) : List Char :=
  if p.getLast? = some '/' then p.dropLast else p

/-- `getPathDepth(url, rootUrl)`. -/
def getPathDepth (url rootUrl : String) : Nat :=
  match parseUrl url.data, parseUrl rootUrl.data with
  | some u, some r =>
    let urlSegments := (splitOnChar '/' (dropOneTrailingSlash u.path)).filter
      (fun s => decide (s ≠ []))
    let rootSegments := (splitOnChar '/' (dropOneTrailingSlash r.path)).filter
      (fun s => decide (s ≠ []))
    urlSegments.length - rootSegments.length
  | _, _ => 0

/-- `parsed.host` (hostname plus explicit port). -/
def hostPortStr (u : UrlModel) : List Char :=
  u.host ++ (match u.port with | some pr => ':' :: pr | none => [])

/-- `getSitemapUrls(rootUrl)`. -/
def getSitemapUrls (rootUrl : String) : List String :=
  match parseUrl rootUrl.data with
  | some u =>
    let base : String := ⟨u.scheme ++ [':', '/', '/'] ++ hostPortStr u⟩
    [base ++ "/sitemap.xml", base ++ "/sitemap_index.xml", base ++ "/sitemap/sitemap.xml"]
  | none => []

/-! ## `url-utils.ts`: SSRF safety -/

def natOfDigits (l : List Char) : Nat := l.foldl (fun n c => n * 10 + (c.toNat - 48)) 0

/-- One dotted-quad octet as `net.isIP` accepts it. -/
def isIPv4Part (p : List Char) : Bool :=
  decide (p ≠ []) && p.all Char.isDigit && decide (p.length ≤ 3) &&
    decide (natOfDigits p ≤ 255) && !(decide (p.head? = some '0') && decide (p ≠ ['0']))

def isIPv4 (h : List Char) : Bool :=
  let parts := splitOnChar '.' h
  decide (parts.length = 4) && parts.all isIPv4Part

/-- `net.isIP(hostname) !== 0`.  A URL hostname can only be a bare IPv4
literal or a bracketed IPv6 literal; `net.isIP` returns 0 for the bracketed
form, so only the IPv4 test matters here. -/
def netIsIP (h : List Char) : Bool := isIPv4 h

/-- The `/^172\.(1[6-9]|2[0-9]|3[01])\./` range test. -/
def is172PrivateRange : List Char → Bool
  | '1' :: '7' :: '2' :: '.' :: a :: b :: '.' :: _ =>
    decide ((a = '1' ∧ '6' ≤ b ∧ b ≤ '9') ∨ (a = '2' ∧ b.isDigit) ∨
      (a = '3' ∧ (b = '0' ∨ b = '1')))
  | _ => false

/-- `isPrivateIP(ip)`: the `PRIVATE_IP_RANGES` regex list. -/
def isPrivateIP (ip : String) : Bool :=
  jsStartsWith ip "127." || jsStartsWith ip "10." || is172PrivateRange ip.data ||
    jsStartsWith ip "192.168." || jsStartsWith ip "169.254." || jsStartsWith ip "0." ||
    ip == "::1" || startsWithCI ip "fe80:" || startsWithCI ip "fc00:" || startsWithCI ip "fd00:"

def BLOCKED_HOSTS : List String := ["localhost", "127.0.0.1", "0.0.0.0", "::1", "[::1]"]

/-- `isBlockedHost(hostname)`. -/
def isBlockedHost (hostname : String) : Bool :=
  let lower := lowerStr hostname
  BLOCKED_HOSTS.contains lower || jsEndsWith lower ".local"

structure SafeResult where
  safe : Bool
  reason : Option String
deriving DecidableEq, Repr

/-- `isSSRFSafe(urlString)`.  DNS resolution (`resolveHostToIP`) is external
input and is passed in as the oracle `dns`; a lookup failure is the empty
list, exactly as in the source.  The WHATWG parser lower-cases
`parsed.protocol`, which the model applies at the comparison. -/
def isSSRFSafe (dns : String → List String) (urlString : String) : SafeResult :=
  match parseUrl urlString.data with
  | none => { safe := false, reason := some "Invalid URL" }
  | some parsed =>
    let protocol : String := ⟨parsed.scheme.map asciiLower ++ [':']⟩
    let hostname : String := ⟨parsed.host⟩
    if ¬ (protocol = "http:" ∨ protocol = "https:") then
      { safe := false, reason := some ("Blocked protocol: " ++ protocol) }
    else if isBlockedHost hostname then
      { safe := false, reason := some ("Blocked host: " ++ hostname) }
    else if netIsIP parsed.host then
      if isPrivateIP hostname then
        { safe := false, reason := some ("Private IP blocked: " ++ hostname) }
      else { safe := true, reason := none }
    else
      match (dns hostname).find? (fun ip => isPrivateIP ip) with
      | some ip => { safe := false, reason := some ("Hostname resolves to private IP: " ++ ip) }
      | none => { safe := true, reason := none }

/-! ## splitAtFirst lemmas -/

theorem splitAtFirst_append (stop : Char → Bool) (l₁ l₂ : List Char)
    (h1 : ∀ c ∈ l₁, stop c = false)
    (h2 : l₂ = [] ∨ ∃ c t, l₂ = c :: t ∧ stop c = true) :
    splitAtFirst stop (l₁ ++ l₂) = (l₁, l₂) := by
  induction l₁ with
  | nil =>
    rcases h2 with h | ⟨c, t, rfl, hc⟩
    · subst h; rfl
    · simp [splitAtFirst, hc]
  | cons a t ih =>
    have ha := h1 a (by simp)
    simp only [List.cons_append, splitAtFirst, ha, Bool.false_eq_true, if_false]
    rw [List.append_eq, ih (fun c hc => h1 c (by simp [hc]))]

theorem splitAtFirst_fst_false (stop : Char → Bool) (l : List Char) :
    ∀ c ∈ (splitAtFirst stop l).1, stop c = false := by
  induction l with
  | nil => simp [splitAtFirst]
  | cons a t ih =>
    by_cases ha : stop a = true
    · simp [splitAtFirst, ha]
    · simp only [Bool.not_eq_true] at ha
      simp only [splitAtFirst, ha, Bool.false_eq_true, if_false, List.mem_cons]
      rintro c (rfl | hc)
      · exact ha
      · exact ih c hc

theorem splitAtFirst_snd_cases (stop : Char → Bool) (l : List Char) :
    (splitAtFirst stop l).2 = [] ∨
      ∃ c t, (splitAtFirst stop l).2 = c :: t ∧ stop c = true := by
  induction l with
  | nil => simp [splitAtFirst]
  | cons a t ih =>
    by_cases ha : stop a = true
    · right; exact ⟨a, t, by simp [splitAtFirst, ha], ha⟩
    · simp only [Bool.not_eq_true] at ha
      simpa [splitAtFirst, ha] using ih

theorem splitAtFirst_join (stop : Char → Bool) (l : List Char) :
    (splitAtFirst stop l).1 ++ (splitAtFirst stop l).2 = l := by
  induction l with
  | nil => rfl
  | cons a t ih =>
    by_cases ha : stop a = true
    · simp [splitAtFirst, ha]
    · simp only [Bool.not_eq_true] at ha
      simp [splitAtFirst, ha, ih]

theorem afterLastAt_eq_self (l : List Char) (h : ∀ c ∈ l, c ≠ '@') :
    afterLastAt l = l := by
  unfold afterLastAt
  rw [List.takeWhile_eq_self_iff.2, List.reverse_reverse]
  intro c hc
  have := h c (List.mem_reverse.1 hc)
  simpa using this

theorem afterLastAt_mem (l : List Char) : ∀ c ∈ afterLastAt l, c ∈ l ∧ c ≠ '@' := by
  intro c hc
  unfold afterLastAt at hc
  rw [List.mem_reverse] at hc
  refine ⟨List.mem_reverse.1 ((List.takeWhile_prefix _).subset hc), ?_⟩
  have := List.mem_takeWhile_imp hc
  simpa using this

/-! ## Well-formedness of parsed URL values and the serialize/parse round trip -/

def HostWF (h : List Char) : Prop :=
  (h ≠ [] ∧ h.head? ≠ some '[' ∧
    ∀ c ∈ h, c ≠ '/' ∧ c ≠ '?' ∧ c ≠ '#' ∧ c ≠ ':' ∧ c ≠ '@' ∧ c ≠ '[' ∧ c ≠ ']') ∨
  (∃ inside, inside ≠ [] ∧ h = '[' :: inside ++ [']'] ∧
    ∀ c ∈ inside, c ≠ ']' ∧ c ≠ '/' ∧ c ≠ '?' ∧ c ≠ '#' ∧ c ≠ '@')

structure UrlWF (u : UrlModel) : Prop where
  scheme_ok : schemeOk u.scheme = true
  host_ok : HostWF u.host
  port_ok : ∀ pr, u.port = some pr →
    pr ≠ [] ∧ (∀ c ∈ pr, c.isDigit = true) ∧ defaultPort u.scheme ≠ some pr
  path_shape : ∃ t, u.path = '/' :: t
  path_stop : ∀ c ∈ u.path, pathStop c = false
  query_ok : ∀ q, u.query = some q → ∀ c ∈ q, c ≠ '#'

theorem isAlpha_ne_colon {c : Char} (h : c.isAlpha = true) : (c == ':') = false := by
  by_cases hc : c = ':'
  · subst hc; exact absurd h (by decide)
  · simpa using hc

theorem schemeCharOk_ne_colon {c : Char} (h : schemeCharOk c = true) : (c == ':') = false := by
  by_cases hc : c = ':'
  · subst hc; exact absurd h (by decide)
  · simpa using hc

theorem schemeOk_no_colon {s : List Char} (h : schemeOk s = true) :
    ∀ c ∈ s, (c == ':') = false := by
  match s with
  | [] => simp [schemeOk] at h
  | a :: t =>
    simp only [schemeOk, Bool.and_eq_true, List.all_eq_true] at h
    intro c hc
    rcases List.mem_cons.1 hc with rfl | hct
    · exact isAlpha_ne_colon h.1
    · exact schemeCharOk_ne_colon (h.2 c hct)

theorem digit_authStop_false {c : Char} (h : c.isDigit = true) : authStop c = false := by
  by_cases h1 : c = '/'
  · subst h1; exact absurd h (by decide)
  by_cases h2 : c = '?'
  · subst h2; exact absurd h (by decide)
  by_cases h3 : c = '#'
  · subst h3; exact absurd h (by decide)
  simp [authStop, h1, h2, h3]

theorem digit_ne_at {c : Char} (h : c.isDigit = true) : c ≠ '@' := by
  intro h1; subst h1; exact absurd h (by decide)

theorem digit_ne_colon {c : Char} (h : c.isDigit = true) : c ≠ ':' := by
  intro h1; subst h1; exact absurd h (by decide)

theorem parsePortSuffix_portTail (host : List Char) (port0 : Option (List Char))
    (hp : ∀ pr, port0 = some pr → pr ≠ [] ∧ ∀ c ∈ pr, c.isDigit = true) :
    parsePortSuffix host (portTail port0) = some (host, port0) := by
  cases port0 with
  | none => rfl
  | some pr =>
    obtain ⟨hne, hd⟩ := hp pr rfl
    show parsePortSuffix host (':' :: pr) = _
    simp only [parsePortSuffix]
    rw [if_neg hne, if_pos (List.all_eq_true.2 hd)]

theorem parseBracketPort_portTail (host : List Char) (port0 : Option (List Char))
    (hp : ∀ pr, port0 = some pr → pr ≠ [] ∧ ∀ c ∈ pr, c.isDigit = true) :
    parseBracketPort host (portTail port0) = some (host, port0) := by
  cases port0 with
  | none => rfl
  | some pr =>
    obtain ⟨hne, hd⟩ := hp pr rfl
    show parseBracketPort host (':' :: pr) = _
    simp only [parseBracketPort]
    rw [if_pos ⟨hne, List.all_eq_true.2 hd⟩]

theorem parseHostPort_roundtrip (host : List Char) (port0 : Option (List Char))
    (hh : HostWF host)
    (hp : ∀ pr, port0 = some pr → pr ≠ [] ∧ ∀ c ∈ pr, c.isDigit = true) :
    parseHostPort (host ++ portTail port0) = some (host, port0) := by
  rcases hh with ⟨hne, hhead, hchars⟩ | ⟨inside, hine, rfl, hichars⟩
  · -- plain host
    obtain ⟨hc, ht, rfl⟩ : ∃ hc ht, host = hc :: ht := by
      cases host with
      | nil => exact absurd rfl hne
      | cons a t => exact ⟨a, t, rfl⟩
    have hcne : hc ≠ '[' := by
      intro h1; exact hhead (by simp [h1])
    have hsplit : splitAtFirst (· == ':') ((hc :: ht) ++ portTail port0) =
        (hc :: ht, portTail port0) := by
      apply splitAtFirst_append
      · intro c hcmem
        have := (hchars c hcmem).2.2.2.1
        simpa using this
      · cases port0 with
        | none => exact Or.inl rfl
        | some pr => exact Or.inr ⟨':', pr, rfl, by decide⟩
    have hmain : parseHostPort ((hc :: ht) ++ portTail port0) =
        parsePlainHostPort ((hc :: ht) ++ portTail port0) := by
      show parseHostPort (hc :: (ht ++ portTail port0)) = _
      unfold parseHostPort
      split
      · next heq =>
        rw [List.cons.injEq] at heq
        exact absurd heq.1 hcne
      · next => rfl
    rw [hmain]
    unfold parsePlainHostPort
    rw [hsplit]
    have hanyf : (hc :: ht).any (fun c => c == '[' || c == ']') = false := by
      rw [List.any_eq_false]
      intro c hcmem
      have h1 := (hchars c hcmem).2.2.2.2.2.1
      have h2 := (hchars c hcmem).2.2.2.2.2.2
      simp [h1, h2]
    rw [if_neg (by simp), if_neg (by simp [hanyf])]
    exact parsePortSuffix_portTail _ _ hp
  · -- bracketed host
    have hsplit : splitAtFirst (· == ']') (inside ++ (']' :: portTail port0)) =
        (inside, ']' :: portTail port0) := by
      apply splitAtFirst_append
      · intro c hcmem
        have := (hichars c hcmem).1
        simpa using this
      · exact Or.inr ⟨']', portTail port0, rfl, by decide⟩
    have hassoc : ('[' :: inside ++ [']']) ++ portTail port0 =
        '[' :: (inside ++ (']' :: portTail port0)) := by simp
    rw [hassoc]
    show parseBracketRest (inside ++ (']' :: portTail port0)) = _
    unfold parseBracketRest
    rw [hsplit]
    show (if inside = [] then none
      else parseBracketPort ('[' :: inside ++ [']']) (portTail port0)) = _
    rw [if_neg hine]
    exact parseBracketPort_portTail _ _ hp

theorem qfTail_cases (qo fo : Option (List Char)) :
    qTail qo ++ fTail fo = [] ∨
      ∃ c t, qTail qo ++ fTail fo = c :: t ∧ pathStop c = true := by
  cases qo with
  | some q => exact Or.inr ⟨'?', q ++ fTail fo, by simp [qTail], by decide⟩
  | none =>
    cases fo with
    | some f => exact Or.inr ⟨'#', f, by simp [qTail, fTail], by decide⟩
    | none => exact Or.inl (by simp [qTail, fTail])

theorem fTail_cases (fo : Option (List Char)) :
    fTail fo = [] ∨ ∃ c t, fTail fo = c :: t ∧ (c == '#') = true := by
  cases fo with
  | some f => exact Or.inr ⟨'#', f, rfl, by decide⟩
  | none => exact Or.inl rfl

theorem splitPathRest_slash (pt tl : List Char)
    (hstop : ∀ c ∈ '/' :: pt, pathStop c = false)
    (htail : tl = [] ∨ ∃ c t, tl = c :: t ∧ pathStop c = true) :
    splitPathRest (('/' :: pt) ++ tl) = ('/' :: pt, tl) := by
  have h := splitAtFirst_append pathStop ('/' :: pt) tl hstop htail
  show splitAtFirst pathStop (('/' :: pt) ++ tl) = _
  rw [h]

theorem splitQueryRest_some (qq tl : List Char)
    (hq : ∀ c ∈ qq, (c == '#') = false)
    (htail : tl = [] ∨ ∃ c t, tl = c :: t ∧ (c == '#') = true) :
    splitQueryRest (qTail (some qq) ++ tl) = (some qq, tl) := by
  have h := splitAtFirst_append (· == '#') qq tl hq htail
  show (some (splitAtFirst (· == '#') (qq ++ tl)).1,
    (splitAtFirst (· == '#') (qq ++ tl)).2) = _
  rw [h]

theorem splitQueryRest_none (fo : Option (List Char)) :
    splitQueryRest (fTail fo) = (none, fTail fo) := by
  cases fo with
  | some f => rfl
  | none => rfl

theorem parseFragment_fTail (fo : Option (List Char)) : parseFragment (fTail fo) = fo := by
  cases fo with
  | some f => rfl
  | none => rfl

theorem parsePathQF_roundtrip (u : UrlModel) (h : UrlWF u) :
    parsePathQF u.scheme u.host u.port (u.path ++ qTail u.query ++ fTail u.fragment) = u := by
  obtain ⟨pt, hpt⟩ := h.path_shape
  have hps : ∀ c ∈ '/' :: pt, pathStop c = false := by rw [← hpt]; exact h.path_stop
  have hsplit1 : splitPathRest (u.path ++ (qTail u.query ++ fTail u.fragment)) =
      (u.path, qTail u.query ++ fTail u.fragment) := by
    rw [hpt]
    exact splitPathRest_slash pt _ hps (qfTail_cases u.query u.fragment)
  have hsplit2 : splitQueryRest (qTail u.query ++ fTail u.fragment) =
      (u.query, fTail u.fragment) := by
    cases hq : u.query with
    | some qq =>
      apply splitQueryRest_some qq _ _ (fTail_cases u.fragment)
      intro c hc
      have := h.query_ok qq hq c hc
      simpa using this
    | none =>
      show splitQueryRest ([] ++ fTail u.fragment) = _
      rw [List.nil_append]
      exact splitQueryRest_none u.fragment
  unfold parsePathQF
  rw [List.append_assoc, hsplit1]
  simp only [hsplit2, parseFragment_fTail]

theorem parseAuthorityRest_roundtrip (u : UrlModel) (h : UrlWF u) :
    parseAuthorityRest u.scheme
      (u.host ++ portTail u.port ++ u.path ++ qTail u.query ++ fTail u.fragment) =
      some u := by
  have hhostchars : ∀ c ∈ u.host ++ portTail u.port, authStop c = false ∧ c ≠ '@' := by
    intro c hc
    rcases List.mem_append.1 hc with hch | hcp
    · rcases h.host_ok with ⟨_, _, hchars⟩ | ⟨inside, _, heq, hichars⟩
      · obtain ⟨h1, h2, h3, _, h5, _, _⟩ := hchars c hch
        exact ⟨by simp [authStop, h1, h2, h3], h5⟩
      · rw [heq] at hch
        rcases List.mem_cons.1 hch with rfl | hch2
        · exact ⟨by decide, by decide⟩
        · rcases List.mem_append.1 hch2 with hci | hcl
          · obtain ⟨_, h2, h3, h4, h5⟩ := hichars c hci
            exact ⟨by simp [authStop, h2, h3, h4], h5⟩
          · rw [List.mem_singleton.1 hcl]
            exact ⟨by decide, by decide⟩
    · cases hp : u.port with
      | none => rw [hp] at hcp; exact absurd hcp (by simp [portTail])
      | some pr =>
        rw [hp] at hcp
        rcases List.mem_cons.1 hcp with rfl | hcd
        · exact ⟨by decide, by decide⟩
        · have hd := (h.port_ok pr hp).2.1 c hcd
          exact ⟨digit_authStop_false hd, digit_ne_at hd⟩
  have htail : u.path ++ qTail u.query ++ fTail u.fragment = [] ∨
      ∃ c t, u.path ++ qTail u.query ++ fTail u.fragment = c :: t ∧ authStop c = true := by
    obtain ⟨pt, hpt⟩ := h.path_shape
    exact Or.inr ⟨'/', pt ++ qTail u.query ++ fTail u.fragment, by simp [hpt], by decide⟩
  have hsplit : splitAtFirst authStop
      ((u.host ++ portTail u.port) ++ (u.path ++ qTail u.query ++ fTail u.fragment)) =
      (u.host ++ portTail u.port, u.path ++ qTail u.query ++ fTail u.fragment) :=
    splitAtFirst_append _ _ _ (fun c hc => (hhostchars c hc).1) htail
  have hassoc : u.host ++ portTail u.port ++ u.path ++ qTail u.query ++ fTail u.fragment =
      (u.host ++ portTail u.port) ++ (u.path ++ qTail u.query ++ fTail u.fragment) := by
    simp [List.append_assoc]
  unfold parseAuthorityRest
  rw [hassoc, hsplit]
  simp only []
  rw [afterLastAt_eq_self _ (fun c hc => (hhostchars c hc).2),
    parseHostPort_roundtrip u.host u.port h.host_ok (fun pr hpr => ⟨(h.port_ok pr hpr).1,
      (h.port_ok pr hpr).2.1⟩)]
  have hstrip : stripDefaultPort u.scheme u.port = u.port := by
    cases hp : u.port with
    | none => rfl
    | some pr =>
      simp only [stripDefaultPort]
      rw [if_neg (h.port_ok pr hp).2.2]
  show some (parsePathQF u.scheme u.host (stripDefaultPort u.scheme u.port)
    (u.path ++ qTail u.query ++ fTail u.fragment)) = some u
  rw [hstrip, parsePathQF_roundtrip u h]

theorem parseUrl_serialize (u : UrlModel) (h : UrlWF u) :
    parseUrl (serializeUrl u) = some u := by
  have hser : serializeUrl u = u.scheme ++ (':' :: ('/' :: '/' ::
      (u.host ++ portTail u.port ++ u.path ++ qTail u.query ++ fTail u.fragment))) := by
    unfold serializeUrl
    simp [List.append_assoc]
  have hsplit : splitAtFirst (· == ':') (serializeUrl u) =
      (u.scheme, ':' :: ('/' :: '/' ::
        (u.host ++ portTail u.port ++ u.path ++ qTail u.query ++ fTail u.fragment))) := by
    rw [hser]
    exact splitAtFirst_append _ _ _ (schemeOk_no_colon h.scheme_ok)
      (Or.inr ⟨':', _, rfl, by decide⟩)
  unfold parseUrl
  rw [hsplit]
  simp only [h.scheme_ok, if_true]
  exact parseAuthorityRest_roundtrip u h

/-! ## Parsing establishes well-formedness -/

theorem splitAtFirst_fst_mem (stop : Char → Bool) (l : List Char) :
    ∀ c ∈ (splitAtFirst stop l).1, c ∈ l := by
  intro c hc
  rw [← splitAtFirst_join stop l]
  exact List.mem_append.2 (Or.inl hc)

theorem parseBracketPort_inv {host0 : List Char} {l : List Char} {host : List Char}
    {port0 : Option (List Char)} (h : parseBracketPort host0 l = some (host, port0)) :
    host = host0 ∧ ∀ pr, port0 = some pr → pr ≠ [] ∧ ∀ c ∈ pr, c.isDigit = true := by
  unfold parseBracketPort at h
  split at h
  · obtain ⟨h1, h2⟩ := Prod.mk.injEq .. ▸ (Option.some.injEq .. ▸ h :)
    exact ⟨h1.symm, fun pr hpr => absurd (h2 ▸ hpr) (by simp)⟩
  · next pr =>
    split at h
    · next hcond =>
      obtain ⟨h1, h2⟩ := Prod.mk.injEq .. ▸ (Option.some.injEq .. ▸ h :)
      refine ⟨h1.symm, fun pr2 hpr2 => ?_⟩
      have : pr2 = pr := by
        rw [← h2] at hpr2
        exact (Option.some.injEq .. ▸ hpr2.symm :)
      subst this
      exact ⟨hcond.1, List.all_eq_true.1 hcond.2⟩
    · exact absurd h (by simp)
  · exact absurd h (by simp)

theorem parsePortSuffix_inv {host0 : List Char} {l : List Char} {host : List Char}
    {port0 : Option (List Char)} (h : parsePortSuffix host0 l = some (host, port0)) :
    host = host0 ∧ ∀ pr, port0 = some pr → pr ≠ [] ∧ ∀ c ∈ pr, c.isDigit = true := by
  unfold parsePortSuffix at h
  split at h
  · obtain ⟨h1, h2⟩ := Prod.mk.injEq .. ▸ (Option.some.injEq .. ▸ h :)
    exact ⟨h1.symm, fun pr hpr => absurd (h2 ▸ hpr) (by simp)⟩
  · next pr =>
    split at h
    · next hpre =>
      obtain ⟨h1, h2⟩ := Prod.mk.injEq .. ▸ (Option.some.injEq .. ▸ h :)
      exact ⟨h1.symm, fun pr2 hpr2 => absurd (h2 ▸ hpr2) (by simp)⟩
    · split at h
      · next hdig =>
        obtain ⟨h1, h2⟩ := Prod.mk.injEq .. ▸ (Option.some.injEq .. ▸ h :)
        refine ⟨h1.symm, fun pr2 hpr2 => ?_⟩
        have : pr2 = pr := by
          rw [← h2] at hpr2
          exact (Option.some.injEq .. ▸ hpr2.symm :)
        subst this
        next hpre2 => exact ⟨hpre2, List.all_eq_true.1 hdig⟩
      · exact absurd h (by simp)
  · exact absurd h (by simp)

theorem parseHostPort_WF {hp host : List Char} {port0 : Option (List Char)}
    (hchars : ∀ c ∈ hp, authStop c = false ∧ c ≠ '@')
    (h : parseHostPort hp = some (host, port0)) :
    HostWF host ∧ ∀ pr, port0 = some pr → pr ≠ [] ∧ ∀ c ∈ pr, c.isDigit = true := by
  have authStop_chars : ∀ c ∈ hp, c ≠ '/' ∧ c ≠ '?' ∧ c ≠ '#' := by
    intro c hc
    have := (hchars c hc).1
    refine ⟨?_, ?_, ?_⟩ <;> intro heq <;> subst heq <;> simp [authStop] at this
  cases hp with
  | nil => simp [parseHostPort, parsePlainHostPort, splitAtFirst] at h
  | cons a t =>
    by_cases ha : a = '['
    · subst ha
      rw [show parseHostPort ('[' :: t) = parseBracketRest t from rfl] at h
      unfold parseBracketRest at h
      split at h
      · next afterB heq =>
        split at h
        · exact absurd h (by simp)
        · next hne =>
          obtain ⟨hhost, hport⟩ := parseBracketPort_inv h
          refine ⟨Or.inr ⟨(splitAtFirst (· == ']') t).1, hne, hhost, ?_⟩, hport⟩
          intro c hc
          have hmemt : c ∈ t := splitAtFirst_fst_mem _ _ c hc
          have hmem : c ∈ '[' :: t := List.mem_cons_of_mem _ hmemt
          have hnb := splitAtFirst_fst_false (· == ']') t c hc
          obtain ⟨h1, h2, h3⟩ := authStop_chars c hmem
          exact ⟨by simpa using hnb, h1, h2, h3, (hchars c hmem).2⟩
      · exact absurd h (by simp)
    · have hred : parseHostPort (a :: t) = parsePlainHostPort (a :: t) := by
        unfold parseHostPort
        split
        · next heq =>
          rw [List.cons.injEq] at heq
          exact absurd heq.1 ha
        · rfl
      rw [hred] at h
      unfold parsePlainHostPort at h
      split at h
      · exact absurd h (by simp)
      · split at h
        · exact absurd h (by simp)
        · next hne hany =>
          obtain ⟨hhost, hport⟩ := parsePortSuffix_inv h
          refine ⟨Or.inl ⟨hhost ▸ hne, ?_, ?_⟩, hport⟩
          · subst hhost
            obtain ⟨b, t2, hbt⟩ : ∃ b t2, (splitAtFirst (· == ':') (a :: t)).1 = b :: t2 := by
              cases hsp : (splitAtFirst (· == ':') (a :: t)).1 with
              | nil => exact absurd hsp hne
              | cons b t2 => exact ⟨b, t2, rfl⟩
            have hjoin := splitAtFirst_join (· == ':') (a :: t)
            rw [hbt] at hjoin
            have hba : b = a := by
              have := congrArg List.head? hjoin
              simpa using this
            subst hba
            rw [hbt]
            simpa using ha
          · subst hhost
            intro c hc
            have hmem : c ∈ a :: t := splitAtFirst_fst_mem _ _ c hc
            obtain ⟨h1, h2, h3⟩ := authStop_chars c hmem
            have hcol := splitAtFirst_fst_false (· == ':') (a :: t) c hc
            have hbr : (c == '[' || c == ']') = false := by
              rw [Bool.not_eq_true, List.any_eq_false] at hany
              simpa using hany c hc
            refine ⟨h1, h2, h3, by simpa using hcol, (hchars c hmem).2, ?_, ?_⟩ <;>
              intro heq <;> subst heq <;> simp at hbr

theorem splitPathRest_shape (rest3 : List Char) :
    (∃ t, (splitPathRest rest3).1 = '/' :: t) ∧
      ∀ c ∈ (splitPathRest rest3).1, pathStop c = false := by
  cases rest3 with
  | nil => exact ⟨⟨[], rfl⟩, by decide⟩
  | cons a t =>
    by_cases ha : a = '/'
    · subst ha
      have hred : splitPathRest ('/' :: t) = splitAtFirst pathStop ('/' :: t) := rfl
      rw [hred]
      constructor
      · have : splitAtFirst pathStop ('/' :: t) =
            ('/' :: (splitAtFirst pathStop t).1, (splitAtFirst pathStop t).2) := by
          simp [splitAtFirst, pathStop]
        rw [this]
        exact ⟨(splitAtFirst pathStop t).1, rfl⟩
      · exact splitAtFirst_fst_false pathStop ('/' :: t)
    · have hred : splitPathRest (a :: t) = (['/'], a :: t) := by
        unfold splitPathRest
        split
        · next heq =>
          rw [List.cons.injEq] at heq
          exact absurd heq.1 ha
        · rfl
      rw [hred]
      refine ⟨⟨[], rfl⟩, ?_⟩
      intro c hc
      rw [List.mem_singleton.1 hc]
      decide

theorem splitQueryRest_inv (rest4 : List Char) :
    ∀ qq, (splitQueryRest rest4).1 = some qq → ∀ c ∈ qq, c ≠ '#' := by
  intro qq hq c hc
  cases rest4 with
  | nil => simp [splitQueryRest] at hq
  | cons a t =>
    by_cases ha : a = '?'
    · subst ha
      have : (splitQueryRest ('?' :: t)).1 = some (splitAtFirst (· == '#') t).1 := rfl
      rw [this] at hq
      have hqq : qq = (splitAtFirst (· == '#') t).1 := by
        exact (Option.some.injEq .. ▸ hq.symm :)
      subst hqq
      have := splitAtFirst_fst_false (· == '#') t c hc
      simpa using this
    · have : splitQueryRest (a :: t) = (none, a :: t) := by
        unfold splitQueryRest
        split
        · next heq =>
          rw [List.cons.injEq] at heq
          exact absurd heq.1 ha
        · rfl
      rw [this] at hq
      simp at hq

theorem parsePathQF_WF {scheme host : List Char} {port : Option (List Char)}
    (rest3 : List Char) (hs : schemeOk scheme = true) (hh : HostWF host)
    (hport : ∀ pr, port = some pr →
      pr ≠ [] ∧ (∀ c ∈ pr, c.isDigit = true) ∧ defaultPort scheme ≠ some pr) :
    UrlWF (parsePathQF scheme host port rest3) := by
  refine ⟨hs, hh, hport, (splitPathRest_shape rest3).1, (splitPathRest_shape rest3).2, ?_⟩
  intro q hq
  exact splitQueryRest_inv _ q hq

theorem stripDefaultPort_inv {scheme : List Char} {port0 port : Option (List Char)}
    (h : stripDefaultPort scheme port0 = port) :
    ∀ pr, port = some pr → port0 = some pr ∧ defaultPort scheme ≠ some pr := by
  intro pr hpr
  cases port0 with
  | none => rw [← h] at hpr; simp [stripDefaultPort] at hpr
  | some pr0 =>
    rw [← h] at hpr
    simp only [stripDefaultPort] at hpr
    by_cases hd : defaultPort scheme = some pr0
    · rw [if_pos hd] at hpr; simp at hpr
    · rw [if_neg hd] at hpr
      have : pr0 = pr := (Option.some.injEq .. ▸ hpr :)
      subst this
      exact ⟨rfl, hd⟩

theorem parseAuthorityRest_WF {scheme rest2 : List Char} {u : UrlModel}
    (hs : schemeOk scheme = true) (h : parseAuthorityRest scheme rest2 = some u) :
    UrlWF u := by
  simp only [parseAuthorityRest] at h
  split at h
  · exact absurd h (by simp)
  · next host port0 heq =>
    have hu : u = parsePathQF scheme host (stripDefaultPort scheme port0)
        (splitAtFirst authStop rest2).2 := by
      exact (Option.some.injEq .. ▸ h.symm :)
    subst hu
    have hchars : ∀ c ∈ afterLastAt (splitAtFirst authStop rest2).1,
        authStop c = false ∧ c ≠ '@' := by
      intro c hc
      obtain ⟨hc1, hc2⟩ := afterLastAt_mem _ c hc
      exact ⟨splitAtFirst_fst_false authStop rest2 c hc1, hc2⟩
    obtain ⟨hh, hport⟩ := parseHostPort_WF hchars heq
    apply parsePathQF_WF _ hs hh
    intro pr hpr
    obtain ⟨hp0, hd⟩ := stripDefaultPort_inv rfl pr hpr
    obtain ⟨h1, h2⟩ := hport pr hp0
    exact ⟨h1, h2, hd⟩

theorem parseUrl_WF {l : List Char} {u : UrlModel} (h : parseUrl l = some u) : UrlWF u := by
  simp only [parseUrl] at h
  split at h
  · next rest1 heq =>
    split at h
    · next hs =>
      split at h
      · exact parseAuthorityRest_WF hs h
      · exact absurd h (by simp)
    · exact absurd h (by simp)
  · exact absurd h (by simp)

/-! ## Query splitting / joining -/

theorem splitOnAux_mem (ch : Char) (l : List Char) :
    ∀ cur, (∀ c ∈ cur, c ≠ ch) →
      ∀ comp ∈ splitOnAux ch l cur, ∀ c ∈ comp, (c ∈ l ∨ c ∈ cur) ∧ c ≠ ch := by
  induction l with
  | nil =>
    intro cur hcur comp hcomp c hc
    simp only [splitOnAux, List.mem_singleton] at hcomp
    subst hcomp
    have := List.mem_reverse.1 hc
    exact ⟨Or.inr this, hcur c this⟩
  | cons a t ih =>
    intro cur hcur comp hcomp c hc
    by_cases ha : a = ch
    · rw [splitOnAux, if_pos ha] at hcomp
      rcases List.mem_cons.1 hcomp with rfl | h2
      · have := List.mem_reverse.1 hc
        exact ⟨Or.inr this, hcur c this⟩
      · have := ih [] (by simp) comp h2 c hc
        rcases this.1 with h3 | h3
        · exact ⟨Or.inl (List.mem_cons_of_mem _ h3), this.2⟩
        · simp at h3
    · rw [splitOnAux, if_neg ha] at hcomp
      have hcur2 : ∀ c2 ∈ a :: cur, c2 ≠ ch := by
        intro c2 hc2
        rcases List.mem_cons.1 hc2 with rfl | h4
        · exact ha
        · exact hcur c2 h4
      have := ih (a :: cur) hcur2 comp hcomp c hc
      rcases this.1 with h3 | h3
      · exact ⟨Or.inl (List.mem_cons_of_mem _ h3), this.2⟩
      · rcases List.mem_cons.1 h3 with rfl | h4
        · exact ⟨Or.inl (List.mem_cons_self _ _), this.2⟩
        · exact ⟨Or.inr h4, this.2⟩

theorem splitOnChar_mem (ch : Char) (l : List Char) :
    ∀ comp ∈ splitOnChar ch l, ∀ c ∈ comp, c ∈ l ∧ c ≠ ch := by
  intro comp hcomp c hc
  have := splitOnAux_mem ch l [] (by simp) comp hcomp c hc
  rcases this.1 with h | h
  · exact ⟨h, this.2⟩
  · simp at h

theorem joinAmp_mem (comps : List (List Char)) :
    ∀ c ∈ joinAmp comps, c = '&' ∨ ∃ comp ∈ comps, c ∈ comp := by
  induction comps with
  | nil => simp [joinAmp]
  | cons x t ih =>
    cases t with
    | nil =>
      intro c hc
      exact Or.inr ⟨x, by simp, hc⟩
    | cons y t2 =>
      intro c hc
      rw [joinAmp] at hc
      rcases List.mem_append.1 hc with h | h
      · exact Or.inr ⟨x, by simp, h⟩
      · rcases List.mem_cons.1 h with rfl | h2
        · exact Or.inl rfl
        · rcases ih c h2 with h3 | ⟨comp, hcomp, hcc⟩
          · exact Or.inl h3
          · exact Or.inr ⟨comp, List.mem_cons_of_mem _ hcomp, hcc⟩

theorem splitOnAux_no_sep (ch : Char) (x : List Char) (hx : ∀ c ∈ x, c ≠ ch) :
    ∀ cur, splitOnAux ch x cur = [cur.reverse ++ x] := by
  induction x with
  | nil => intro cur; simp [splitOnAux]
  | cons a t ih =>
    intro cur
    have ha : a ≠ ch := hx a (by simp)
    rw [splitOnAux, if_neg ha, ih (fun c hc => hx c (List.mem_cons_of_mem _ hc))]
    simp

theorem splitOnAux_sep (ch : Char) (x l : List Char) (hx : ∀ c ∈ x, c ≠ ch) :
    ∀ cur, splitOnAux ch (x ++ ch :: l) cur = (cur.reverse ++ x) :: splitOnAux ch l [] := by
  induction x with
  | nil =>
    intro cur
    simp [splitOnAux]
  | cons a t ih =>
    intro cur
    have ha : a ≠ ch := hx a (by simp)
    rw [List.cons_append, splitOnAux, if_neg ha,
      ih (fun c hc => hx c (List.mem_cons_of_mem _ hc))]
    simp

theorem splitOnChar_joinAmp (comps : List (List Char)) (hne : comps ≠ [])
    (h1 : ∀ comp ∈ comps, ∀ c ∈ comp, c ≠ '&') :
    splitOnChar '&' (joinAmp comps) = comps := by
  induction comps with
  | nil => exact absurd rfl hne
  | cons x t ih =>
    cases t with
    | nil =>
      show splitOnAux '&' (joinAmp [x]) [] = [x]
      rw [show joinAmp [x] = x from rfl, splitOnAux_no_sep '&' x (h1 x (by simp))]
      simp
    | cons y t2 =>
      show splitOnAux '&' (joinAmp (x :: y :: t2)) [] = x :: y :: t2
      rw [show joinAmp (x :: y :: t2) = x ++ '&' :: joinAmp (y :: t2) from rfl,
        splitOnAux_sep '&' x _ (h1 x (by simp))]
      have := ih (by simp) (fun comp hc => h1 comp (List.mem_cons_of_mem _ hc))
      rw [show splitOnAux '&' (joinAmp (y :: t2)) [] = splitOnChar '&' (joinAmp (y :: t2))
        from rfl, this]
      simp

theorem deleteTrackedQuery_idem (q0 : Option (List Char)) :
    deleteTrackedQuery (deleteTrackedQuery q0) = deleteTrackedQuery q0 := by
  cases q0 with
  | none => rfl
  | some q =>
    have hstep : deleteTrackedQuery (some q) =
        match (queryComponents q).filter (fun c => decide (componentKey c ∉ trackedParams)) with
        | [] => none
        | _ => some (joinAmp ((queryComponents q).filter
            (fun c => decide (componentKey c ∉ trackedParams)))) := by
      simp only [deleteTrackedQuery]
    cases hc : (queryComponents q).filter (fun c => decide (componentKey c ∉ trackedParams)) with
    | nil => rw [hstep, hc]; rfl
    | cons a t =>
      rw [hstep, hc]
      have hsub : ∀ comp ∈ a :: t, comp ∈ (queryComponents q).filter
          (fun c => decide (componentKey c ∉ trackedParams)) := by
        intro comp hcomp; rw [hc]; exact hcomp
      have hnonempty : ∀ comp ∈ a :: t, comp ≠ [] := by
        intro comp hcomp
        have h2 := List.mem_filter.1 (hsub comp hcomp)
        have h3 := (List.mem_filter.1 h2.1).2
        simpa using h3
      have hnoamp : ∀ comp ∈ a :: t, ∀ c ∈ comp, c ≠ '&' := by
        intro comp hcomp c hcc
        have h2 := List.mem_filter.1 (hsub comp hcomp)
        have h3 := (List.mem_filter.1 h2.1).1
        exact (splitOnChar_mem '&' q comp h3 c hcc).2
      have hkeys : ∀ comp ∈ a :: t, decide (componentKey comp ∉ trackedParams) = true := by
        intro comp hcomp
        exact (List.mem_filter.1 (hsub comp hcomp)).2
      have hround : queryComponents (joinAmp (a :: t)) = a :: t := by
        unfold queryComponents
        rw [splitOnChar_joinAmp (a :: t) (by simp) hnoamp]
        rw [List.filter_eq_self.2]
        intro comp hcomp
        simpa using hnonempty comp hcomp
      have hfilter : (queryComponents (joinAmp (a :: t))).filter
          (fun c => decide (componentKey c ∉ trackedParams)) = a :: t := by
        rw [hround, List.filter_eq_self.2 hkeys]
      show deleteTrackedQuery (some (joinAmp (a :: t))) = some (joinAmp (a :: t))
      simp only [deleteTrackedQuery, hfilter]

/-! ## nfUrl preserves well-formedness; conditional idempotence -/

theorem nfUrl_fields (u : UrlModel) :
    nfUrl u = ⟨u.scheme, u.host, u.port, stripTrailingSlash u.path,
      deleteTrackedQuery u.query, none⟩ := rfl

theorem stripTrailingSlash_shape {p : List Char} (h : ∃ t, p = '/' :: t) :
    ∃ t, stripTrailingSlash p = '/' :: t := by
  obtain ⟨t, rfl⟩ := h
  unfold stripTrailingSlash
  split
  · next hcond =>
    have ht : t ≠ [] := by
      intro h0
      subst h0
      simp at hcond
    obtain ⟨b, t2, rfl⟩ := List.exists_cons_of_ne_nil ht
    rw [List.dropLast_cons₂]
    exact ⟨_, rfl⟩
  · exact ⟨t, rfl⟩

theorem stripTrailingSlash_mem {p : List Char} : ∀ c ∈ stripTrailingSlash p, c ∈ p := by
  intro c hc
  unfold stripTrailingSlash at hc
  split at hc
  · exact (List.dropLast_sublist p).subset hc
  · exact hc

theorem deleteTrackedQuery_chars {q0 : Option (List Char)}
    (hq : ∀ q, q0 = some q → ∀ c ∈ q, c ≠ '#') :
    ∀ j, deleteTrackedQuery q0 = some j → ∀ c ∈ j, c ≠ '#' := by
  intro j hj c hc
  cases q0 with
  | none => simp [deleteTrackedQuery] at hj
  | some q =>
    simp only [deleteTrackedQuery] at hj
    split at hj
    · exact absurd hj (by simp)
    · have hj2 : j = joinAmp ((queryComponents q).filter
          (fun c => decide (componentKey c ∉ trackedParams))) :=
        (Option.some.injEq .. ▸ hj.symm :)
      subst hj2
      rcases joinAmp_mem _ c hc with rfl | ⟨comp, hcomp, hcc⟩
      · decide
      · have h2 := List.mem_filter.1 hcomp
        have h3 := (List.mem_filter.1 h2.1).1
        exact hq q rfl c (splitOnChar_mem '&' q comp h3 c hcc).1

theorem nfUrl_WF {u : UrlModel} (h : UrlWF u) : UrlWF (nfUrl u) := by
  rw [nfUrl_fields]
  refine ⟨h.scheme_ok, h.host_ok, h.port_ok, stripTrailingSlash_shape h.path_shape, ?_, ?_⟩
  · intro c hc
    exact h.path_stop c (stripTrailingSlash_mem c hc)
  · intro q hq
    exact deleteTrackedQuery_chars h.query_ok q hq

theorem stripTrailingSlash_idem (p : List Char)
    (h : ¬(1 < (stripTrailingSlash p).length ∧
      (stripTrailingSlash p).getLast? = some '/')) :
    stripTrailingSlash (stripTrailingSlash p) = stripTrailingSlash p := by
  have hred : stripTrailingSlash (stripTrailingSlash p) =
      if 1 < (stripTrailingSlash p).length ∧ (stripTrailingSlash p).getLast? = some '/'
      then (stripTrailingSlash p).dropLast else stripTrailingSlash p := rfl
  rw [hred, if_neg h]

theorem nfUrl_idem {u : UrlModel}
    (h : ¬(1 < (nfUrl u).path.length ∧ (nfUrl u).path.getLast? = some '/')) :
    nfUrl (nfUrl u) = nfUrl u := by
  have h2 : ¬(1 < (stripTrailingSlash u.path).length ∧
      (stripTrailingSlash u.path).getLast? = some '/') := h
  have hred : nfUrl (nfUrl u) = ⟨u.scheme, u.host, u.port,
      stripTrailingSlash (stripTrailingSlash u.path),
      deleteTrackedQuery (deleteTrackedQuery u.query), none⟩ := rfl
  rw [hred, deleteTrackedQuery_idem, stripTrailingSlash_idem _ h2, nfUrl_fields]

/-- The side condition under which `normalizeUrl` is idempotent on an output
value: the normalized path does not still end with a slash (which happens
exactly when the original path ended in two or more slashes). -/
def pathTrailOk (s : String) : Bool :=
  match parseUrl s.data with
  | some u => !(decide (1 < u.path.length ∧ u.path.getLast? = some '/'))
  | none => true

/-- C10, counterexample: `normalizeUrl` is NOT idempotent as claimed.  The
source removes only a single trailing slash (`pathname.slice(0, -1)` under an
`endsWith("/")` check), so a path ending in two slashes normalizes to one
still ending in a slash, and renormalizing strips it again:
`normalizeUrl("http://example.com/a//") = "http://example.com/a/"` but
`normalizeUrl("http://example.com/a/") = "http://example.com/a"`. -/
theorem normalizeUrl_not_idempotent :
    normalizeUrl "http://example.com/a//" = some "http://example.com/a/" ∧
    normalizeUrl "http://example.com/a/" = some "http://example.com/a" ∧
    ("http://example.com/a" : String) ≠ "http://example.com/a/" :=
  ⟨by decide, by decide, by decide⟩

/-- C10 (amended): for every URL string `u` accepted by `normalizeUrl`,
renormalizing the result yields the same string PROVIDED the normalized
path does not still end in a trailing slash (equivalently, the original
path did not end in two or more slashes); without that proviso idempotence
fails, see `normalizeUrl_not_idempotent`. -/
theorem normalizeUrl_idem (s v : String) (h : normalizeUrl s = some v)
    (hv : pathTrailOk v = true) : normalizeUrl v = some v := by
  obtain ⟨u, hu, hvdef⟩ := Option.map_eq_some'.1 h
  have hvdef2 : (⟨serializeUrl (nfUrl u)⟩ : String) = v := hvdef
  have hWF2 : UrlWF (nfUrl u) := nfUrl_WF (parseUrl_WF hu)
  have hrt : parseUrl v.data = some (nfUrl u) := by
    rw [← hvdef2]
    exact parseUrl_serialize _ hWF2
  have hcond : ¬(1 < (nfUrl u).path.length ∧ (nfUrl u).path.getLast? = some '/') := by
    unfold pathTrailOk at hv
    rw [hrt] at hv
    simp only [Bool.not_eq_true', decide_eq_false_iff_not] at hv
    exact hv
  unfold normalizeUrl
  rw [hrt]
  simp only [Option.map_some']
  rw [nfUrl_idem hcond, hvdef2]

/-- Witness: `normalizeUrl_idem` applied at a concrete URL. -/
theorem normalizeUrl_idem_witness :
    normalizeUrl "http://example.com/docs/" = some "http://example.com/docs" ∧
    pathTrailOk "http://example.com/docs" = true ∧
    normalizeUrl "http://example.com/docs" = some "http://example.com/docs" :=
  ⟨by decide, by decide,
    normalizeUrl_idem "http://example.com/docs/" "http://example.com/docs"
      (by decide) (by decide)⟩

/-- C3: `isSSRFSafe` rejects `http://127.0.0.1/` (blocked host list),
`http://169.254.169.254/` (private/link-local IP literal) and
`ftp://example.com/` (non-http(s) protocol), and accepts any URL whose
scheme is https, whose hostname is neither blocked nor an IP literal, and
whose DNS resolution yields only non-private addresses. -/
theorem isSSRFSafe_spec (dns : String → List String) (u : String) (p : UrlModel)
    (hp : parseUrl u.data = some p)
    (hscheme : p.scheme.map asciiLower = "https".data)
    (hblocked : isBlockedHost ⟨p.host⟩ = false)
    (hip : netIsIP p.host = false)
    (hdns : ∀ ip ∈ dns ⟨p.host⟩, isPrivateIP ip = false) :
    (isSSRFSafe dns "http://127.0.0.1/").safe = false ∧
    (isSSRFSafe dns "http://169.254.169.254/").safe = false ∧
    (isSSRFSafe dns "ftp://example.com/").safe = false ∧
    (isSSRFSafe dns u).safe = true := by
  refine ⟨rfl, rfl, rfl, ?_⟩
  simp only [isSSRFSafe, hp]
  have hproto : (⟨List.map asciiLower p.scheme ++ [':']⟩ : String) = "https:" := by
    rw [show List.map asciiLower p.scheme = p.scheme.map asciiLower from rfl, hscheme]
    rfl
  rw [if_neg (not_not_intro (Or.inr hproto))]
  rw [if_neg (by rw [hblocked]; simp)]
  rw [if_neg (by rw [hip]; simp)]
  have hfind : (dns ⟨p.host⟩).find? (fun ip => isPrivateIP ip) = none :=
    List.find?_eq_none.2 (fun ip hip2 => by rw [hdns ip hip2]; simp)
  rw [hfind]

/-- A DNS oracle resolving every name to a single public address. -/
def dnsPub : String → List String := fun _ => ["93.184.216.34"]

/-- Witness: `isSSRFSafe_spec` applied at `https://docs.example.com/` with a
public-only DNS oracle. -/
theorem isSSRFSafe_spec_witness :
    (isSSRFSafe dnsPub "http://127.0.0.1/").safe = false ∧
    (isSSRFSafe dnsPub "http://169.254.169.254/").safe = false ∧
    (isSSRFSafe dnsPub "ftp://example.com/").safe = false ∧
    (isSSRFSafe dnsPub "https://docs.example.com/").safe = true :=
  isSSRFSafe_spec dnsPub "https://docs.example.com/"
    ⟨"https".data, "docs.example.com".data, none, ['/'], none, none⟩
    (by decide) (by decide) (by decide) (by decide) (by decide)

/-! ## Data model (`types.ts`)

`ExtractedPage` follows the interface in `types.ts`; JS numbers used as
integers become `Nat`, the floating-point `textToHtmlRatio` becomes `ℚ`
(exact division, which matches the source values exactly at the precision
any claim observes), `error?: string` becomes `Option String`. -/

structure PageHeading where
  level : Nat
  text : String
deriving DecidableEq, Repr

structure CodeBlock where
  language : Option String
  content : String
deriving DecidableEq, Repr

structure FAQItem where
  question : String
  answer : String
deriving DecidableEq, Repr

structure ExtractedPage where
  url : String
  title : Option String
  canonical : Option String
  metaDescription : Option String
  headings : List PageHeading
  codeBlocks : List CodeBlock
  internalLinks : List String
  mainContent : String
  rawHtml : String
  statusCode : Nat
  error : Option String
  hasJsonLd : Bool
  jsonLdTypes : List String
  hasFAQSchema : Bool
  faqItems : List FAQItem
  hasOpenAPILink : Bool
  openAPIUrl : Option String
  hasPrerequisites : Bool
  internalLinkCount : Nat
  externalLinkCount : Nat
  codeLanguages : List String
  scriptCount : Nat
  htmlSize : Nat
  textToHtmlRatio : ℚ
deriving DecidableEq, Repr

structure ContentChunk where
  pageUrl : String
  content : String
  tokenEstimate : Nat
  headingContext : Option String
deriving DecidableEq, Repr

/-! ## Chunker (`chunker.ts`) -/

def DEFAULT_CHUNK_SIZE : Nat := 1500
def MIN_CHUNK_SIZE : Nat := 100
def MAX_CHUNK_SIZE : Nat := 3000

/-- `estimateTokens(text) = Math.ceil(text.length / 4)`. -/
def estimateTokens (text : String) : Nat := (text.length + 3) / 4

def isSentencePunct (c : Char) : Bool := c == '.' || c == '!' || c == '?'

/-- One match of the sentence regex `[^.!?]+[.!?]+\s*` at the current
position: a nonempty run of non-punctuation, a nonempty run of `.!?`, then
any whitespace.  Returns the matched text and the rest. -/
def matchSentence (l : List Char) : Option (List Char × List Char) :=
  let a := splitAtFirst isSentencePunct l
  if a.1 = [] then none
  else
    let b := splitAtFirst (fun c => !(isSentencePunct c)) a.2
    if b.1 = [] then none
    else
      let c := splitAtFirst (fun c => !(c.isWhitespace)) b.2
      some (a.1 ++ b.1 ++ c.1, c.2)

theorem splitAtFirst_length (stop : Char → Bool) (l : List Char) :
    (splitAtFirst stop l).1.length + (splitAtFirst stop l).2.length = l.length := by
  have := congrArg List.length (splitAtFirst_join stop l)
  simpa using this

/-- The scan of `text.match(/[^.!?]+[.!?]+\s*/g)`: all matches, left to
right, non-matching characters skipped.  Structural recursion on a fuel
argument (each step consumes at least one character, so fuel equal to the
input length — as supplied by `sentencesAux` — is never exhausted). -/
def sentencesAuxF : Nat → List Char → List (List Char)
  | _, [] => []
  | 0, _ :: _ => []
  | fuel + 1, ch :: t =>
    match matchSentence (ch :: t) with
    | some (m, rest) => m :: sentencesAuxF fuel rest
    | none => sentencesAuxF fuel t

def sentencesAux (l : List Char) : List (List Char) := sentencesAuxF l.length l

/-- `text.match(...) || [text]`. -/
def jsMatchSentences (text : String) : List String :=
  match sentencesAux text.data with
  | [] => [text]
  | l => l.map (fun m => (⟨m⟩ : String))

/-- The sentence-accumulation loop of `chunkBySize` (source lines 32–55):
note the guard checks the UNTRIMMED `currentChunk.length` but pushes the
TRIMMED content. -/
def chunkLoop (pageUrl : String) (headingContext : Option String) (maxSize : Nat) :
    List String → String → List ContentChunk → List ContentChunk
  | [], currentChunk, chunks =>
    if MIN_CHUNK_SIZE ≤ (jsTrim currentChunk).length then
      chunks ++ [⟨pageUrl, jsTrim currentChunk, estimateTokens currentChunk, headingContext⟩]
    else chunks
  | sentence :: rest, currentChunk, chunks =>
    if maxSize < (currentChunk ++ sentence).length ∧ MIN_CHUNK_SIZE ≤ currentChunk.length then
      chunkLoop pageUrl headingContext maxSize rest sentence
        (chunks ++ [⟨pageUrl, jsTrim currentChunk, estimateTokens currentChunk, headingContext⟩])
    else
      chunkLoop pageUrl headingContext maxSize rest (currentChunk ++ sentence) chunks

/-- `chunkBySize(text, pageUrl, headingContext, maxSize)`. -/
def chunkBySize (text pageUrl : String) (headingContext : Option String) (maxSize : Nat) :
    List ContentChunk :=
  if text.length ≤ maxSize then
    if MIN_CHUNK_SIZE ≤ text.length then
      [⟨pageUrl, text, estimateTokens text, headingContext⟩]
    else []
  else
    chunkLoop pageUrl headingContext maxSize (jsMatchSentences text) "" []

/-- Try each heading text, in order, as a case-insensitive literal prefix of
`l` — the leftmost-alternative semantics of the split regex
`(escapedHeading1|escapedHeading2|...)/gi`.  Empty heading texts are skipped:
a zero-width JS match splits between characters and contributes an empty
capture that the subsequent `.filter((p) => p.trim())` drops anyway. -/
def tryHeads (heads : List String) (l : List Char) : Option (List Char × List Char) :=
  match heads with
  | [] => none
  | h :: hs =>
    if h.data ≠ [] ∧ listPrefix (h.data.map asciiLower) (l.map asciiLower) = true then
      some (l.take h.data.length, l.drop h.data.length)
    else tryHeads hs l

/-- `content.split(regex)` with the capture group kept: interleaves the text
between matches with the matched (original-case) heading occurrences.
Structural recursion on fuel; fuel equal to the input length (as supplied by
`splitKeep`) is never exhausted since every step consumes a character. -/
def splitKeepAux (heads : List String) : Nat → List Char → List Char → List String
  | _, [], cur => [(⟨cur.reverse⟩ : String)]
  | 0, _ :: _, cur => [(⟨cur.reverse⟩ : String)]
  | fuel + 1, c :: t, cur =>
    match tryHeads heads (c :: t) with
    | some (m, rest) =>
      (⟨cur.reverse⟩ : String) :: (⟨m⟩ : String) :: splitKeepAux heads fuel rest []
    | none => splitKeepAux heads fuel t (c :: cur)

def splitKeep (heads : List String) (content : String) : List String :=
  splitKeepAux heads content.data.length content.data []

/-- The per-part loop of `chunkPage` (source lines 86–104). -/
def chunkPartsLoop (page : ExtractedPage) :
    List String → Option String → String → List ContentChunk → List ContentChunk
  | [], currentHeading, currentContent, chunks =>
    if MIN_CHUNK_SIZE ≤ (jsTrim currentContent).length then
      chunks ++ chunkBySize (jsTrim currentContent) page.url currentHeading DEFAULT_CHUNK_SIZE
    else chunks
  | part :: rest, currentHeading, currentContent, chunks =>
    match page.headings.find? (fun h => lowerStr h.text == lowerStr (jsTrim part)) with
    | some matchingHeading =>
      chunkPartsLoop page rest (some matchingHeading.text) ""
        (if MIN_CHUNK_SIZE ≤ (jsTrim currentContent).length then
          chunks ++ chunkBySize (jsTrim currentContent) page.url currentHeading DEFAULT_CHUNK_SIZE
        else chunks)
    | none => chunkPartsLoop page rest currentHeading (currentContent ++ " " ++ part) chunks

/-- `chunkPage(page)`. -/
def chunkPage (page : ExtractedPage) : List ContentChunk :=
  if page.mainContent = "" ∨ page.mainContent.length < MIN_CHUNK_SIZE then []
  else if page.headings = [] then
    chunkBySize page.mainContent page.url page.title DEFAULT_CHUNK_SIZE
  else if String.intercalate "|" (page.headings.map (fun h => h.text)) = "" then
    -- the escaped `headingPattern` join is falsy only when it is the empty
    -- string, i.e. a single heading with empty text
    chunkBySize page.mainContent page.url page.title DEFAULT_CHUNK_SIZE
  else
    chunkPartsLoop page
      ((splitKeep (page.headings.map (fun h => h.text)) page.mainContent).filter
        (fun p => decide (jsTrim p ≠ "")))
      page.title "" []

/-- `chunkAllPages(pages)`: skip errored pages.  (`!page.error` is falsy
exactly when the optional error is absent; the crawler only ever sets
nonempty error strings.) -/
def chunkAllPages (pages : List ExtractedPage) : List ContentChunk :=
  pages.foldl (fun acc page => if page.error = none then acc ++ chunkPage page else acc) []

/-! ## Chunk-size properties (C8) -/

theorem mem_dropWhile_of_not {p : Char → Bool} {l : List Char} {c : Char}
    (hc : c ∈ l) (hp : p c = false) : c ∈ l.dropWhile p := by
  induction l with
  | nil => simp at hc
  | cons a t ih =>
    by_cases ha : p a = true
    · rw [List.dropWhile_cons_of_pos ha]
      rcases List.mem_cons.1 hc with rfl | h2
      · rw [ha] at hp; simp at hp
      · exact ih h2
    · rw [List.dropWhile_cons_of_neg ha]
      exact hc

theorem trimList_ne_nil {l : List Char} {c : Char} (hc : c ∈ l)
    (hw : c.isWhitespace = false) : trimList l ≠ [] := by
  intro h
  unfold trimList at h
  have h1 : c ∈ l.dropWhile Char.isWhitespace := mem_dropWhile_of_not hc hw
  have h2 : c ∈ (l.dropWhile Char.isWhitespace).reverse := List.mem_reverse.2 h1
  have h3 : c ∈ (l.dropWhile Char.isWhitespace).reverse.dropWhile Char.isWhitespace :=
    mem_dropWhile_of_not h2 hw
  rw [List.reverse_eq_nil_iff.1 h] at h3
  simp at h3

theorem jsTrim_ne_empty {s : String} {c : Char} (hc : c ∈ s.data)
    (hw : c.isWhitespace = false) : jsTrim s ≠ "" := by
  intro h
  have hdata : trimList s.data = [] := congrArg String.data h
  exact trimList_ne_nil hc hw hdata

theorem str_ne_empty_of_len {s : String} (h : 1 ≤ s.length) : s ≠ "" := by
  intro he
  subst he
  exact absurd h (by decide)

theorem isSentencePunct_not_ws {c : Char} (h : isSentencePunct c = true) :
    c.isWhitespace = false := by
  simp only [isSentencePunct, Bool.or_eq_true, beq_iff_eq] at h
  rcases h with (h | h) | h <;> subst h <;> decide

theorem matchSentence_has_punct {l m rest : List Char}
    (h : matchSentence l = some (m, rest)) : ∃ c ∈ m, isSentencePunct c = true := by
  simp only [matchSentence] at h
  split at h
  · exact absurd h (by simp)
  · split at h
    · exact absurd h (by simp)
    · next ha hb =>
      have hm : m = (splitAtFirst isSentencePunct l).1 ++
          (splitAtFirst (fun c => !(isSentencePunct c)) (splitAtFirst isSentencePunct l).2).1 ++
          (splitAtFirst (fun c => !(c.isWhitespace))
            (splitAtFirst (fun c => !(isSentencePunct c))
              (splitAtFirst isSentencePunct l).2).2).1 := by
        have := (Prod.mk.injEq .. ▸ (Option.some.injEq .. ▸ h :) :)
        exact this.1.symm
      obtain ⟨c, t2, hbc⟩ : ∃ c t2,
          (splitAtFirst (fun c => !(isSentencePunct c)) (splitAtFirst isSentencePunct l).2).1 =
            c :: t2 := by
        cases hcase : (splitAtFirst (fun c => !(isSentencePunct c))
            (splitAtFirst isSentencePunct l).2).1 with
        | nil => exact absurd hcase hb
        | cons c t2 => exact ⟨c, t2, rfl⟩
      have hcp : (fun c => !(isSentencePunct c)) c = false := by
        apply splitAtFirst_fst_false (fun c => !(isSentencePunct c))
          (splitAtFirst isSentencePunct l).2
        rw [hbc]
        simp
      refine ⟨c, ?_, by simpa using hcp⟩
      rw [hm, hbc]
      simp

theorem sentencesAuxF_punct (fuel : Nat) :
    ∀ l, ∀ m ∈ sentencesAuxF fuel l, ∃ c ∈ m, isSentencePunct c = true := by
  induction fuel with
  | zero =>
    intro l m hm
    cases l <;> simp [sentencesAuxF] at hm
  | succ fuel ih =>
    intro l m hm
    cases l with
    | nil => simp [sentencesAuxF] at hm
    | cons ch t =>
      simp only [sentencesAuxF] at hm
      cases hmatch : matchSentence (ch :: t) with
      | some p =>
        obtain ⟨m2, rest⟩ := p
        rw [hmatch] at hm
        rcases List.mem_cons.1 hm with rfl | h2
        · exact matchSentence_has_punct hmatch
        · exact ih rest m h2
      | none =>
        rw [hmatch] at hm
        exact ih t m hm

theorem sentencesAux_punct (l : List Char) :
    ∀ m ∈ sentencesAux l, ∃ c ∈ m, isSentencePunct c = true :=
  sentencesAuxF_punct l.length l

/-- The property every chunk emitted by the chunker actually has: nonempty
content that is (possibly the trim of) an accumulation of at least
`MIN_CHUNK_SIZE` characters. -/
def GoodChunk (ck : ContentChunk) : Prop :=
  ck.content ≠ "" ∧
    ∃ s : String, MIN_CHUNK_SIZE ≤ s.length ∧ (ck.content = s ∨ ck.content = jsTrim s)

theorem goodChunk_final {pageUrl : String} {headingContext : Option String}
    {current : String} (hlen : MIN_CHUNK_SIZE ≤ (jsTrim current).length) :
    GoodChunk ⟨pageUrl, jsTrim current, estimateTokens current, headingContext⟩ :=
  ⟨str_ne_empty_of_len (le_trans (by decide : (1 : Nat) ≤ MIN_CHUNK_SIZE) hlen),
    jsTrim current, hlen, Or.inl rfl⟩

theorem chunkLoop_good (pageUrl : String) (headingContext : Option String) (maxSize : Nat)
    (sentences : List String) :
    ∀ current chunks,
      (∀ ck ∈ chunks, GoodChunk ck) →
      (current = "" ∨ ∃ c ∈ current.data, c.isWhitespace = false) →
      (∀ s ∈ sentences, ∃ c ∈ s.data, c.isWhitespace = false) →
      ∀ ck ∈ chunkLoop pageUrl headingContext maxSize sentences current chunks,
        GoodChunk ck := by
  induction sentences with
  | nil =>
    intro current chunks hchunks _hcur _hsent ck hck
    rw [chunkLoop] at hck
    split at hck
    · next hlen =>
      rcases List.mem_append.1 hck with h | h
      · exact hchunks ck h
      · rw [List.mem_singleton.1 h]
        exact goodChunk_final hlen
    · exact hchunks ck hck
  | cons s rest ih =>
    intro current chunks hchunks hcur hsent ck hck
    rw [chunkLoop] at hck
    split at hck
    · next hcond =>
      have hchunks2 : ∀ ck2 ∈ chunks ++
          [(⟨pageUrl, jsTrim current, estimateTokens current, headingContext⟩ : ContentChunk)],
          GoodChunk ck2 := by
        intro ck2 hck2
        rcases List.mem_append.1 hck2 with h | h
        · exact hchunks ck2 h
        · rw [List.mem_singleton.1 h]
          have hcurlen : MIN_CHUNK_SIZE ≤ current.length := hcond.2
          have hcurne : ∃ c ∈ current.data, c.isWhitespace = false := by
            rcases hcur with rfl | h2
            · exact absurd hcurlen (by decide)
            · exact h2
          obtain ⟨c, hcm, hcw⟩ := hcurne
          exact ⟨jsTrim_ne_empty hcm hcw, current, hcurlen, Or.inr rfl⟩
      exact ih s _ hchunks2 (Or.inr (hsent s (by simp)))
        (fun s2 hs2 => hsent s2 (by simp [hs2])) ck hck
    · have hcur2 : current ++ s = "" ∨
          ∃ c ∈ (current ++ s).data, c.isWhitespace = false := by
        rcases hsent s (by simp) with ⟨c, hcm, hcw⟩
        refine Or.inr ⟨c, ?_, hcw⟩
        rw [String.data_append]
        exact List.mem_append.2 (Or.inr hcm)
      exact ih (current ++ s) chunks hchunks hcur2
        (fun s2 hs2 => hsent s2 (by simp [hs2])) ck hck

theorem chunkBySize_good (text pageUrl : String) (headingContext : Option String)
    (maxSize : Nat) : ∀ ck ∈ chunkBySize text pageUrl headingContext maxSize, GoodChunk ck := by
  intro ck hck
  unfold chunkBySize at hck
  split at hck
  · split at hck
    · next hlen =>
      rw [List.mem_singleton.1 hck]
      exact ⟨str_ne_empty_of_len (le_trans (by decide : (1 : Nat) ≤ MIN_CHUNK_SIZE) hlen),
        text, hlen, Or.inl rfl⟩
    · simp at hck
  · cases hsent : sentencesAux text.data with
    | nil =>
      have hms : jsMatchSentences text = [text] := by rw [jsMatchSentences, hsent]
      rw [hms, chunkLoop, if_neg (fun hcond => absurd hcond.2 (by decide)), chunkLoop] at hck
      split at hck
      · next hlen =>
        have : ck = (⟨pageUrl, jsTrim ("" ++ text), estimateTokens ("" ++ text),
            headingContext⟩ : ContentChunk) := by simpa using hck
        rw [this]
        exact goodChunk_final hlen
      · simp at hck
    | cons m ms =>
      have hms : jsMatchSentences text = (m :: ms).map (fun m2 => (⟨m2⟩ : String)) := by
        rw [jsMatchSentences, hsent]
      rw [hms] at hck
      apply chunkLoop_good pageUrl headingContext maxSize _ "" [] (by simp) (Or.inl rfl)
        ?_ ck hck
      intro s2 hs2
      obtain ⟨m2, hm2, rfl⟩ := List.mem_map.1 hs2
      rw [← hsent] at hm2
      obtain ⟨c, hcm, hcp⟩ := sentencesAux_punct text.data m2 hm2
      exact ⟨c, hcm, isSentencePunct_not_ws hcp⟩

theorem chunkPartsLoop_good (page : ExtractedPage) (parts : List String) :
    ∀ currentHeading currentContent chunks,
      (∀ ck ∈ chunks, GoodChunk ck) →
      ∀ ck ∈ chunkPartsLoop page parts currentHeading currentContent chunks, GoodChunk ck := by
  induction parts with
  | nil =>
    intro ch cc chunks hchunks ck hck
    rw [chunkPartsLoop] at hck
    split at hck
    · rcases List.mem_append.1 hck with h | h
      · exact hchunks ck h
      · exact chunkBySize_good _ _ _ _ ck h
    · exact hchunks ck hck
  | cons part rest ih =>
    intro ch cc chunks hchunks ck hck
    rw [chunkPartsLoop] at hck
    split at hck
    · apply ih _ _ _ ?_ ck hck
      intro ck2 hck2
      split at hck2
      · rcases List.mem_append.1 hck2 with h | h
        · exact hchunks ck2 h
        · exact chunkBySize_good _ _ _ _ ck2 h
      · exact hchunks ck2 hck2
    · exact ih _ _ _ hchunks ck hck

/-- C8 (amended): every chunk emitted by `chunkPage` has non-empty content,
and that content is an accumulated sentence run of at least `MIN_CHUNK_SIZE`
(100) characters, or the `trim()` of such a run — the stored content itself
can therefore fall below 100 characters, but only by removal of surrounding
whitespace (see `chunkPage_min_size_cex`).  A trailing fragment whose
trimmed length is below the minimum is dropped rather than emitted. -/
theorem chunkPage_chunks (page : ExtractedPage) :
    ∀ ck ∈ chunkPage page, ck.content ≠ "" ∧
      ∃ s : String, MIN_CHUNK_SIZE ≤ s.length ∧
        (ck.content = s ∨ ck.content = jsTrim s) := by
  intro ck hck
  unfold chunkPage at hck
  split at hck
  · simp at hck
  · split at hck
    · exact chunkBySize_good _ _ _ _ ck hck
    · split at hck
      · exact chunkBySize_good _ _ _ _ ck hck
      · exact chunkPartsLoop_good page _ _ _ _ (by simp) ck hck

/-- A minimal valid page used to exercise the chunker at concrete inputs. -/
def testPage (content : String) (headings : List PageHeading) : ExtractedPage :=
  { url := "https://a.com/", title := some "T", canonical := none, metaDescription := none,
    headings := headings, codeBlocks := [], internalLinks := [], mainContent := content,
    rawHtml := "", statusCode := 200, error := none, hasJsonLd := false, jsonLdTypes := [],
    hasFAQSchema := false, faqItems := [], hasOpenAPILink := false, openAPIUrl := none,
    hasPrerequisites := false, internalLinkCount := 0, externalLinkCount := 0,
    codeLanguages := [], scriptCount := 0, htmlSize := 0, textToHtmlRatio := 0 }

/-- 1502 characters: a 2-character sentence padded with 120 spaces, followed
by a 1380-character sentence. -/
def cexText : String :=
  ⟨['x', '.'] ++ List.replicate 120 ' ' ++ List.replicate 1379 'b' ++ ['.']⟩

/-- C8, counterexample: on a heading-less page whose 1502-character content
starts with the short sentence `"x."` padded to 122 characters with spaces,
the accumulation guard passes (122 ≥ 100 untrimmed) but the chunk stores the
TRIMMED content `"x."`, which is only 2 characters — violating the claimed
`MIN_CHUNK_SIZE` lower bound on emitted chunk content. -/
theorem chunkPage_min_size_cex :
    ¬ (∀ ck ∈ chunkPage (testPage cexText []), ck.content ≠ "" ∧
        MIN_CHUNK_SIZE ≤ ck.content.length) := by
  intro hall
  have hlen : (chunkPage (testPage cexText [])).map (fun ck => ck.content.length) =
      [2, 1380] := by decide
  cases hl : chunkPage (testPage cexText []) with
  | nil => rw [hl] at hlen; simp at hlen
  | cons c1 rest =>
    rw [hl] at hlen
    simp only [List.map_cons, List.cons.injEq] at hlen
    have h := hall c1 (by rw [hl]; simp)
    rw [hlen.1] at h
    exact absurd h.2 (by decide)

/-- Witness: `chunkPage_chunks` applied to a concrete 150-character page. -/
theorem chunkPage_chunks_witness :
    ∃ ck ∈ chunkPage (testPage (String.mk (List.replicate 150 'a')) []),
      ck.content ≠ "" ∧ ∃ s : String, MIN_CHUNK_SIZE ≤ s.length ∧
        (ck.content = s ∨ ck.content = jsTrim s) := by
  have hn : (chunkPage (testPage (String.mk (List.replicate 150 'a')) [])).length = 1 := by
    decide
  cases hl : chunkPage (testPage (String.mk (List.replicate 150 'a')) []) with
  | nil => rw [hl] at hn; simp at hn
  | cons c1 rest =>
    have hmem : c1 ∈ chunkPage (testPage (String.mk (List.replicate 150 'a')) []) := by
      rw [hl]
      exact List.mem_cons_self c1 rest
    exact ⟨c1, List.mem_cons_self c1 rest,
      chunkPage_chunks (testPage (String.mk (List.replicate 150 'a')) []) c1 hmem⟩

/-! ## Scorer data model (`types.ts`, `scorer.ts`)

Scores are JS numbers used as integers (all deductions are integer-valued),
modelled as `Int` before clamping; ratios are exact rationals.  JS
floating-point arithmetic is modelled as exact rational arithmetic: every
claim proved about the scorer is threshold-independent, so the sub-ulp
differences of binary floats cannot change any claim outcome.  The source
field `exists` is renamed `fileExists` (`exists` is not a usable identifier).
-/

inductive FindingSeverity
  | pass
  | low
  | med
  | high
deriving DecidableEq, Repr

/-- `Finding`; `category` is the field `scoreAll` adds when pooling
(`{ ...f, category: cat.name }`), absent on findings inside a category. -/
structure Finding where
  severity : FindingSeverity
  message : String
  urls : List String
  detail : Option String
  category : Option String
deriving DecidableEq, Repr

structure LlmsTxtInfo where
  fileExists : Bool
  content : Option String
  hasProductDescription : Bool
  hasDocumentationLinks : Bool
  hasUseCases : Bool
deriving DecidableEq, Repr

structure RobotsTxtInfo where
  fileExists : Bool
  content : Option String
  allowsAICrawlers : Bool
  blocksAICrawlers : Bool
  mentionsSitemap : Bool
  aiCrawlerRules : List String
deriving DecidableEq, Repr

structure SitemapInfo where
  fileExists : Bool
  urlCount : Nat
  hasLastmod : Bool
  coverageRatio : ℚ
deriving DecidableEq, Repr

structure AILandingPageInfo where
  fileExists : Bool
  url : Option String
deriving DecidableEq, Repr

structure AIDiscoveryFiles where
  llmsTxt : LlmsTxtInfo
  robotsTxt : RobotsTxtInfo
  sitemap : SitemapInfo
  aiLandingPage : AILandingPageInfo
deriving DecidableEq, Repr

structure CategoryResult where
  name : String
  score : Int
  max : Int
  findings : List Finding
deriving DecidableEq, Repr

def MAX_CATEGORY_SCORE : Int := 20
def TOP_URLS_LIMIT : Nat := 10

/-- `createFinding(severity, message, urls = [], detail?)`. -/
def createFinding (severity : FindingSeverity) (message : String) (urls : List String)
    (detail : Option String) : Finding :=
  { severity := severity, message := message, urls := urls.take TOP_URLS_LIMIT,
    detail := detail, category := none }

/-! ## `scoreAICrawlAccessibility`

Each block below returns (total deduction, findings in push order); the
sequential `score -= k` updates of the source commute into one subtraction,
and `xxxIssues === 0` is equivalent to "the block pushed no findings". -/

def llmsTxtFindings (a : LlmsTxtInfo) : Int × List Finding :=
  if ¬ a.fileExists then
    (6, [createFinding .high
      "No llms.txt file found. This file helps AI agents understand your site structure and content."
      []
      (some "llms.txt is a plain-text file placed at the root of your domain (e.g. example.com/llms.txt) that tells AI agents what your product is, where key documentation lives, and what use cases it serves. Without it, AI crawlers have to guess your site\x27s structure. Creating one is simple — it\x27s just a text file with a product description, links to important doc sections, and common use cases. See llmstxt.org for the specification.")])
  else
    let fs :=
      (if ¬ a.hasProductDescription then
        [createFinding .med "llms.txt exists but lacks a clear product description." []
          (some "Your llms.txt file should start with a concise description of what your product does. This helps AI agents understand the context of your documentation and provide more accurate recommendations. Add 1-3 sentences at the top describing your product\x27s purpose and key capabilities.")]
      else []) ++
      (if ¬ a.hasDocumentationLinks then
        [createFinding .med "llms.txt should include links to key documentation sections." []
          (some "AI agents use llms.txt as a table of contents. Without links, they can\x27t efficiently navigate to the right documentation sections. Add URLs to your most important pages — getting started guides, API references, tutorials, and configuration docs. This dramatically reduces the number of pages an AI needs to crawl to find relevant information.")]
      else []) ++
      (if ¬ a.hasUseCases then
        [createFinding .low "llms.txt should describe common use cases for better AI recommendations." []
          (some "Including use cases in your llms.txt helps AI agents match user questions to relevant documentation. For example, \x27Use case: Authentication — see /docs/auth\x27 helps an AI agent know exactly where to look when a user asks about authentication. List your 3-5 most common use cases with pointers to the relevant docs.")]
      else [])
    ((if ¬ a.hasProductDescription then 2 else 0) +
      (if ¬ a.hasDocumentationLinks then 2 else 0) +
      (if ¬ a.hasUseCases then 1 else 0),
     if fs = [] then
      [createFinding .pass
        "llms.txt file found with product description, documentation links, and use cases."
        [] none]
     else fs)

def robotsTxtFindings (r : RobotsTxtInfo) : Int × List Finding :=
  if ¬ r.fileExists then
    (3, [createFinding .med "No robots.txt file found. AI crawlers need clear access rules." []
      (some "robots.txt is a standard file that tells web crawlers which pages they can and cannot access. Without one, AI crawlers may index content you don\x27t want indexed, or may be overly cautious and skip your docs entirely. Create a robots.txt at your site root with explicit rules for AI user agents like GPTBot, Claude-Web, and Amazonbot. A simple \x27User-agent: * Allow: /\x27 is a good starting point.")])
  else
    let fs :=
      (if r.blocksAICrawlers then
        [createFinding .high
          "robots.txt blocks AI crawlers (GPTBot, Claude-Web, etc). Your content won\x27t be indexed by AI agents."
          []
          (some "Your robots.txt currently disallows access for AI-specific crawlers. This means AI assistants like ChatGPT, Claude, and others cannot read your documentation, making it invisible in AI-generated answers. If this is intentional for certain sections, consider allowing access to your public documentation while blocking sensitive areas. Add explicit \x27Allow\x27 rules for GPTBot, Claude-Web, and other AI user agents for your documentation paths.")]
      else if ¬ r.allowsAICrawlers ∧ r.aiCrawlerRules = [] then
        [createFinding .low
          "robots.txt doesn\x27t explicitly allow AI crawlers. Consider adding rules for GPTBot, Claude-Web, etc."
          []
          (some "While your robots.txt doesn\x27t block AI crawlers, it also doesn\x27t explicitly allow them. Some AI crawlers are conservative and may not index your content without explicit permission. Adding specific user-agent rules like \x27User-agent: GPTBot Allow: /\x27 signals that your documentation is AI-friendly and should be indexed.")]
      else []) ++
      (if ¬ r.mentionsSitemap then
        [createFinding .low
          "robots.txt should reference your sitemap.xml for better crawl discovery." []
          (some "Adding a \x27Sitemap: https://yourdomain.com/sitemap.xml\x27 line to your robots.txt helps crawlers discover your sitemap automatically. This is especially useful for AI crawlers that start by reading robots.txt — they\x27ll immediately know where to find your complete page listing without having to guess the sitemap location.")]
      else [])
    ((if r.blocksAICrawlers then 4
       else if ¬ r.allowsAICrawlers ∧ r.aiCrawlerRules = [] then 1 else 0) +
      (if ¬ r.mentionsSitemap then 1 else 0),
     if fs = [] then
      [createFinding .pass
        "robots.txt properly configured with AI crawler access rules and sitemap reference."
        [] none]
     else fs)

def sitemapFindings (s : SitemapInfo) (pages : List ExtractedPage) : Int × List Finding :=
  if ¬ s.fileExists then
    (4, [createFinding .high
      "No sitemap.xml found. AI crawlers rely heavily on sitemaps for page discovery." []
      (some "A sitemap.xml file lists all the pages on your site in a machine-readable format. AI crawlers use sitemaps as their primary method of discovering pages — without one, they may miss large portions of your documentation. Create a sitemap.xml at your site root listing all documentation pages. Most static site generators and CMS platforms can generate one automatically. Include <lastmod> dates so crawlers know which content is fresh.")])
  else
    let fs :=
      (if ¬ s.hasLastmod then
        [createFinding .low
          "Sitemap lacks <lastmod> dates. Adding these helps AI agents prioritize fresh content."
          []
          (some "The <lastmod> element in your sitemap tells crawlers when each page was last updated. AI agents use this to prioritize fresh content and skip pages that haven\x27t changed. Without these dates, crawlers treat all pages equally and may waste time re-indexing unchanged content. Add <lastmod> dates in ISO 8601 format (e.g. 2024-01-15) to each <url> entry in your sitemap.")]
      else []) ++
      (if s.coverageRatio < 5/10 ∧ 10 < pages.length then
        [createFinding .med
          ("Sitemap only covers " ++ toString (round (s.coverageRatio * 100)) ++
            "% of crawled pages. Many pages may be undiscoverable.")
          []
          (some "Your sitemap lists significantly fewer pages than were found during crawling. This means many of your documentation pages are not included in the sitemap and may be missed by AI crawlers that rely on sitemaps for page discovery. Update your sitemap to include all public documentation pages. If some pages are intentionally excluded, ensure they\x27re still reachable through internal links.")]
      else [])
    ((if ¬ s.hasLastmod then 1 else 0) +
      (if s.coverageRatio < 5/10 ∧ 10 < pages.length then 1 else 0),
     if fs = [] then
      [createFinding .pass
        ("sitemap.xml found with " ++ toString s.urlCount ++
          " URLs and lastmod dates for freshness signals.")
        [] none]
     else fs)

def scoreAICrawlAccessibility (aiFiles : AIDiscoveryFiles) (pages : List ExtractedPage) :
    CategoryResult :=
  let l := llmsTxtFindings aiFiles.llmsTxt
  let r := robotsTxtFindings aiFiles.robotsTxt
  let sm := sitemapFindings aiFiles.sitemap pages
  { name := "AI Crawl Accessibility",
    score := max 0 (MAX_CATEGORY_SCORE - l.1 - r.1 - sm.1),
    max := MAX_CATEGORY_SCORE,
    findings := l.2 ++ r.2 ++ sm.2 }

/-! ## `scoreStructuredDataAndMachineReadability` -/

/-- `/TechArticle|HowTo|APIReference|SoftwareSourceCode|FAQPage/i.test(t)`. -/
def isRichType (t : String) : Bool :=
  containsCI t "TechArticle" || containsCI t "HowTo" || containsCI t "APIReference" ||
    containsCI t "SoftwareSourceCode" || containsCI t "FAQPage"

/-- `/api|endpoint|request|response/i.test(content)`. -/
def mentionsAPI (content : String) : Bool :=
  containsCI content "api" || containsCI content "endpoint" ||
    containsCI content "request" || containsCI content "response"

def jsonLdBlock (validPages : List ExtractedPage) : Int × List Finding :=
  let pagesWithJsonLd := validPages.filter (fun p => p.hasJsonLd)
  let jsonLdRatio : ℚ := (pagesWithJsonLd.length : ℚ) / (validPages.length : ℚ)
  let hasFAQContent := validPages.any (fun p => decide (0 < p.faqItems.length))
  if jsonLdRatio < 1/10 then
    if hasFAQContent then
      (3, [createFinding .med
        "FAQ content detected but no FAQPage JSON-LD schema. Adding this schema significantly improves AI citation likelihood."
        ((validPages.filter (fun p => decide (0 < p.faqItems.length))).map (fun p => p.url))
        (some "Your documentation contains FAQ-style content (question and answer patterns), but it\x27s not marked up with FAQPage JSON-LD schema. AI systems like Google\x27s Search Generative Experience heavily prioritize FAQ structured data when generating answers. Adding FAQPage schema wraps your Q&A content in a format AI can parse directly, making it much more likely to be cited. You can add this as a <script type=\"application/ld+json\"> block in the page head.")])
    else
      (1, [createFinding .low
        "No JSON-LD structured data found. Optional for docs, but FAQPage/TechArticle schemas can improve AI visibility."
        []
        (some "JSON-LD (JavaScript Object Notation for Linked Data) is a way to embed structured metadata in your pages using <script type=\"application/ld+json\"> tags. While not strictly required, adding schemas like TechArticle, HowTo, or FAQPage helps AI systems understand your content\x27s type and structure. This metadata gives AI agents additional context beyond the raw text, improving how they categorize and cite your documentation.")])
  else if jsonLdRatio < 5/10 then
    (0, [createFinding .low
      (toString (round (jsonLdRatio * 100)) ++ "% of pages have JSON-LD. Consider expanding coverage.")
      ((validPages.filter (fun p => ¬ p.hasJsonLd)).map (fun p => p.url))
      (some "Some of your pages have JSON-LD structured data, but coverage is below 50%. The listed pages lack structured data. Expanding coverage ensures AI agents have consistent metadata across your documentation. Consider adding TechArticle or Article schemas to your remaining pages — many static site generators support this through templates, so you can add it once and apply it everywhere.")])
  else
    (0, [createFinding .pass
      (toString (round (jsonLdRatio * 100)) ++ "% of pages have JSON-LD structured data for AI context.")
      [] none])

def richTypesBlock (validPages : List ExtractedPage) : Int × List Finding :=
  let pagesWithJsonLd := validPages.filter (fun p => p.hasJsonLd)
  let allJsonLdTypes := validPages.flatMap (fun p => p.jsonLdTypes)
  let hasRichTypes := allJsonLdTypes.any isRichType
  if ¬ hasRichTypes ∧ 0 < pagesWithJsonLd.length then
    (2, [createFinding .low
      "JSON-LD exists but lacks documentation-specific types (TechArticle, HowTo, APIReference). Use richer schema types."
      []
      (some "Your pages have JSON-LD, but they use generic types like \x27WebPage\x27 or \x27Article\x27. Documentation-specific schema types give AI agents much richer signals. TechArticle tells an AI that the page contains technical content; HowTo indicates step-by-step instructions; FAQPage marks question-answer content. Using these types helps AI systems categorize your content correctly and surface it for the right queries. Update your JSON-LD @type field to use the most specific type that matches your content.")])
  else if hasRichTypes then
    (0, [createFinding .pass
      "Rich schema types detected (TechArticle, HowTo, or similar) for enhanced AI understanding."
      [] none])
  else (0, [])

def openAPIBlock (validPages : List ExtractedPage) : Int × List Finding :=
  let pagesWithOpenAPI := validPages.filter (fun p => p.hasOpenAPILink)
  if pagesWithOpenAPI.length = 0 then
    if validPages.any (fun p => mentionsAPI p.mainContent) then
      (5, [createFinding .high
        "API documentation detected but no OpenAPI/Swagger spec link found. Machine-readable API specs are critical for AI agents."
        ((validPages.filter (fun p => containsCI p.url "api")).map (fun p => p.url))
        (some "Your documentation includes API-related content (endpoints, requests, responses), but no link to an OpenAPI or Swagger specification was found. OpenAPI specs are the gold standard for machine-readable API documentation — AI agents can parse them to understand every endpoint, parameter, request body, and response format without scraping HTML. Host your OpenAPI spec as a JSON or YAML file and link to it from your API docs. Tools like Swagger UI, Redoc, or Stoplight can generate documentation from the spec automatically.")])
    else (0, [])
  else
    (0, [createFinding .pass
      ("OpenAPI/Swagger spec found at: " ++
        (match pagesWithOpenAPI.head? with
         | some p => match p.openAPIUrl with
           | some u => u
           | none => "linked pages"
         | none => "linked pages"))
      (pagesWithOpenAPI.map (fun p => p.url)) none])

def scoreStructuredDataAndMachineReadability (pages : List ExtractedPage) : CategoryResult :=
  let validPages := pages.filter (fun p => decide (p.error = none))
  if validPages.length = 0 then
    { name := "Structured Data & Machine Readability", score := 0,
      max := MAX_CATEGORY_SCORE, findings := [] }
  else
    let j := jsonLdBlock validPages
    let rt := richTypesBlock validPages
    let oa := openAPIBlock validPages
    { name := "Structured Data & Machine Readability",
      score := max 0 (MAX_CATEGORY_SCORE - j.1 - rt.1 - oa.1),
      max := MAX_CATEGORY_SCORE,
      findings := j.2 ++ rt.2 ++ oa.2 }

/-! ## `scoreContentSelfContainment` -/

def thinContentBlock (validPages : List ExtractedPage) (jsRendered : Bool) :
    Int × List Finding :=
  if jsRendered then
    (10, [createFinding .high
      "Site is JavaScript-rendered. AI crawlers (GPTBot, Claude-Web, etc.) cannot index JS-rendered content. Most page content is invisible to AI agents. Consider server-side rendering (SSR) or static site generation (SSG)."
      []
      (some "Your documentation site relies on client-side JavaScript to render content. When an AI crawler requests your pages, it receives a mostly empty HTML shell because it doesn\x27t execute JavaScript. This means the actual documentation text, code examples, and navigation are invisible to AI agents. This is the single most impactful issue for AI discoverability. To fix this, switch to server-side rendering (SSR) using frameworks like Next.js or Nuxt, or use static site generation (SSG) with tools like Docusaurus, MkDocs, or Hugo. These approaches serve fully-rendered HTML that any crawler can read.")])
  else
    let thinPages := validPages.filter
      (fun p => decide (0 < p.mainContent.length ∧ p.mainContent.length < 300))
    if (validPages.length : ℚ) * (2/10) < (thinPages.length : ℚ) then
      let ratio : ℚ := (thinPages.length : ℚ) / (validPages.length : ℚ)
      (min 5 ⌈ratio * 10⌉, [createFinding .high
        (toString thinPages.length ++
          " pages have thin content (<300 chars). AI agents need substantial, self-contained information.")
        (thinPages.map (fun p => p.url))
        (some "These pages have very little text content (under 300 characters). When an AI retrieval system indexes a thin page, it produces a chunk that lacks enough context to generate a useful answer. Pages that serve as mere redirects, contain only a title, or rely heavily on images/videos without text descriptions are common culprits. Consider expanding these pages with descriptive text, or consolidating thin pages into more substantial parent pages. Every page should be able to stand on its own as a useful answer.")])
    else
      (0, [createFinding .pass
        (toString (validPages.length - thinPages.length) ++ "/" ++ toString validPages.length ++
          " pages have substantial content (>300 chars).")
        [] none])

def chunkSizeBlocks (chunks : List ContentChunk) : Int × List Finding :=
  let shortChunks := chunks.filter (fun c => decide (c.tokenEstimate < 50))
  let longChunks := chunks.filter (fun c => decide (800 < c.tokenEstimate))
  let goodChunks := chunks.filter (fun c => decide (50 ≤ c.tokenEstimate ∧ c.tokenEstimate ≤ 800))
  let f1 :=
    if (chunks.length : ℚ) * (3/10) < (shortChunks.length : ℚ) then
      [createFinding .med
        (toString shortChunks.length ++
          " chunks are too short (<50 tokens). Content may lack context when retrieved.")
        ((shortChunks.map (fun c => c.pageUrl)).dedup)
        (some "When AI retrieval systems index your documentation, they split pages into \x27chunks\x27 — sections of text typically divided by headings. A chunk under 50 tokens (roughly 1-2 short sentences) doesn\x27t carry enough context for an AI to generate a useful answer from it alone. Short chunks often result from pages with many small headings, sparse content under each section, or navigation-heavy pages. The listed URLs contributed the most short chunks. To improve this, consolidate small sections under fewer headings, or add more descriptive text to brief sections.")]
    else []
  let f2 :=
    if (chunks.length : ℚ) * (2/10) < (longChunks.length : ℚ) then
      [createFinding .low
        (toString longChunks.length ++
          " chunks exceed 800 tokens. Consider better heading structure for improved chunking.")
        ((longChunks.map (fun c => c.pageUrl)).dedup)
        (some "Chunks over 800 tokens (roughly a full page of text) are too long for most AI retrieval systems to handle efficiently. When a chunk is too large, the AI may struggle to identify the relevant portion, or the chunk may get truncated. Long chunks usually result from pages with very few headings — large walls of text with no structural breaks. Adding more H2/H3 headings to break up long sections creates natural chunk boundaries, making each piece of content more focused and retrievable.")]
    else []
  let f3 :=
    if (shortChunks.length : ℚ) ≤ (chunks.length : ℚ) * (3/10) ∧
        (longChunks.length : ℚ) ≤ (chunks.length : ℚ) * (2/10) ∧ 0 < chunks.length then
      [createFinding .pass
        (toString goodChunks.length ++ "/" ++ toString chunks.length ++
          " chunks are well-sized (50-800 tokens) for AI retrieval.")
        [] none]
    else []
  ((if (chunks.length : ℚ) * (3/10) < (shortChunks.length : ℚ) then
      min 3 ⌈((shortChunks.length : ℚ) / (chunks.length : ℚ)) * 6⌉ else 0) +
    (if (chunks.length : ℚ) * (2/10) < (longChunks.length : ℚ) then 2 else 0),
   f1 ++ f2 ++ f3)

def scoreContentSelfContainment (pages : List ExtractedPage) (chunks : List ContentChunk)
    (jsRendered : Bool) : CategoryResult :=
  let validPages := pages.filter (fun p => decide (p.error = none))
  if validPages.length = 0 then
    { name := "Content Self-Containment", score := 0, max := MAX_CATEGORY_SCORE, findings := [] }
  else
    let tb := thinContentBlock validPages jsRendered
    let cb := chunkSizeBlocks chunks
    { name := "Content Self-Containment",
      score := max 0 (MAX_CATEGORY_SCORE - tb.1 - cb.1),
      max := MAX_CATEGORY_SCORE,
      findings := tb.2 ++ cb.2 }

/-! ## `scoreDocumentationArchitecture` -/

/-- `x.toFixed(1)` for the non-negative averages displayed in messages
(display only; no claim depends on the string). -/
def toFixed1 (q : ℚ) : String :=
  let n : Int := round (q * 10)
  toString (n / 10) ++ "." ++ toString (n % 10)

def internalLinksBlock (validPages : List ExtractedPage) : Int × List Finding :=
  let avgInternalLinks : ℚ :=
    ((validPages.map (fun p => p.internalLinkCount)).sum : ℚ) / (validPages.length : ℚ)
  if avgInternalLinks < 3 then
    (5, [createFinding .high
      ("Low internal linking: average " ++ toFixed1 avgInternalLinks ++
        " links per page. AI agents use link structure to understand relationships.")
      ((validPages.filter (fun p => decide (p.internalLinkCount < 2))).map (fun p => p.url))
      (some "Internal links are how AI crawlers discover pages and understand how concepts relate to each other. With fewer than 3 links per page on average, your documentation appears disconnected — AI agents can\x27t navigate between related topics, and pages without incoming links may never be discovered. Add \x27See also\x27 sections, link to related guides from within your content, and ensure every page links to at least 2-3 related pages. Good cross-linking also helps AI agents understand which pages are most important (more links = higher authority).")])
  else if avgInternalLinks < 5 then
    (2, [createFinding .med
      ("Moderate internal linking: " ++ toFixed1 avgInternalLinks ++
        " links per page. Consider adding more cross-references.")
      []
      (some "Your documentation has some internal linking, but there\x27s room for improvement. AI crawlers use link density and structure to understand page relationships and importance. Adding more contextual links — such as \x27Related guides\x27, \x27Prerequisites\x27, and inline references to other doc pages — helps AI agents build a richer understanding of your content graph. Aim for 5+ internal links per page through navigation, breadcrumbs, and in-content references.")])
  else
    (0, [createFinding .pass
      ("Good internal linking: average " ++ toFixed1 avgInternalLinks ++
        " links per page for AI navigation.")
      [] none])

def badH1Block (validPages : List ExtractedPage) : Int × List Finding :=
  let pagesWithBadH1 := validPages.filter
    (fun p => decide ((p.headings.filter (fun h => decide (h.level = 1))).length ≠ 1))
  if (validPages.length : ℚ) * (2/10) < (pagesWithBadH1.length : ℚ) then
    (min 4 ⌈((pagesWithBadH1.length : ℚ) / (validPages.length : ℚ)) * 8⌉,
     [createFinding .med
      (toString pagesWithBadH1.length ++
        " pages have missing or multiple H1 headings. Each page should have exactly one H1.")
      (pagesWithBadH1.map (fun p => p.url))
      (some "Each documentation page should have exactly one H1 heading that clearly describes the page\x27s topic. AI agents use the H1 as the primary identifier for what a page is about — it\x27s the \x27title\x27 of the content chunk. Pages with no H1 leave AI agents guessing, and pages with multiple H1s create confusion about the page\x27s primary topic. Check the listed pages and ensure each has a single, descriptive H1. If your framework generates duplicate H1s (e.g., from both a title field and the content), adjust your template.")])
  else
    (0, [createFinding .pass
      (toString (validPages.length - pagesWithBadH1.length) ++ "/" ++
        toString validPages.length ++ " pages have proper H1 heading structure.")
      [] none])

/-- `levels[i] - levels[i-1] > 1` for some adjacent pair. -/
def levelSkip : List Nat → Bool
  | a :: b :: rest => if (1 : Int) < (b : Int) - (a : Int) then true else levelSkip (b :: rest)
  | _ => false

def skippedLevelsBlock (validPages : List ExtractedPage) : Int × List Finding :=
  let pagesWithSkippedLevels := validPages.filter
    (fun p => levelSkip (p.headings.map (fun h => h.level)))
  if (validPages.length : ℚ) * (3/10) < (pagesWithSkippedLevels.length : ℚ) then
    (2, [createFinding .low
      (toString pagesWithSkippedLevels.length ++
        " pages skip heading levels (e.g., H2 to H4). Proper hierarchy aids content chunking.")
      (pagesWithSkippedLevels.map (fun p => p.url))
      (some "Heading hierarchy (H1 > H2 > H3 > H4) is how AI chunking systems determine section boundaries and parent-child relationships between content. When you skip levels (e.g., jumping from H2 to H4), the chunker can\x27t properly nest content, leading to chunks that lose their hierarchical context. For example, a subsection under \x27Authentication > OAuth > Token Refresh\x27 becomes just \x27Token Refresh\x27 with no parent context. Fix this by ensuring headings follow a sequential order without gaps.")])
  else
    (0, [createFinding .pass
      (toString (validPages.length - pagesWithSkippedLevels.length) ++ "/" ++
        toString validPages.length ++ " pages have proper heading hierarchy.")
      [] none])

/-- Matches of `/last\s*updated/i` starting at this position. -/
def lastUpdatedFrom (l : List Char) : Bool :=
  if listPrefix "last".data l then
    listPrefix "updated".data ((l.drop 4).dropWhile Char.isWhitespace)
  else false

def anySuffix (p : List Char → Bool) : List Char → Bool
  | [] => p []
  | c :: t => p (c :: t) || anySuffix p t

/-- `freshnessPatterns.some((pat) => pat.test(p.rawHtml))`: the regexes
`/last\s*updated/i`, `/modified/i`, `/dateModified/i`, `/datePublished/i`
and `/<time/i` (the third is subsumed by the second but kept faithful). -/
def freshnessTest (html : String) : Bool :=
  let lower := html.data.map asciiLower
  anySuffix lastUpdatedFrom lower || listInfix "modified".data lower ||
    listInfix "datemodified".data lower || listInfix "datepublished".data lower ||
    listInfix "<time".data lower

def freshnessBlock (validPages : List ExtractedPage) : Int × List Finding :=
  let pagesWithDates := validPages.filter (fun p => freshnessTest p.rawHtml)
  if (pagesWithDates.length : ℚ) < (validPages.length : ℚ) * (3/10) then
    (3, [createFinding .med
      ("Only " ++ toString pagesWithDates.length ++ "/" ++ toString validPages.length ++
        " pages show freshness signals. AI agents prioritize recently updated content.")
      ((validPages.filter (fun p => ¬ freshnessTest p.rawHtml)).map (fun p => p.url))
      none])
  else
    (0, [createFinding .pass
      (toString pagesWithDates.length ++ "/" ++ toString validPages.length ++
        " pages display freshness signals (dates, timestamps).")
      [] none])

def errorRateBlock (pages : List ExtractedPage) : Int × List Finding :=
  let errorPages := pages.filter
    (fun p => decide (p.error ≠ none ∨ (400 ≤ p.statusCode ∧ p.statusCode < 600)))
  if (pages.length : ℚ) * (1/10) < (errorPages.length : ℚ) then
    (2, [createFinding .med
      (toString errorPages.length ++ " pages returned errors. Broken links hurt crawl efficiency.")
      (errorPages.map (fun p => p.url))
      none])
  else
    (0, [createFinding .pass
      ("Low error rate: " ++ toString errorPages.length ++ "/" ++ toString pages.length ++
        " pages with errors.")
      [] none])

def scoreDocumentationArchitecture (pages : List ExtractedPage) : CategoryResult :=
  let validPages := pages.filter (fun p => decide (p.error = none))
  if validPages.length = 0 then
    { name := "Documentation Architecture", score := 0, max := MAX_CATEGORY_SCORE,
      findings := [] }
  else
    let il := internalLinksBlock validPages
    let h1 := badH1Block validPages
    let sk := skippedLevelsBlock validPages
    let fr := freshnessBlock validPages
    let er := errorRateBlock pages
    { name := "Documentation Architecture",
      score := max 0 (MAX_CATEGORY_SCORE - il.1 - h1.1 - sk.1 - fr.1 - er.1),
      max := MAX_CATEGORY_SCORE,
      findings := il.2 ++ h1.2 ++ sk.2 ++ fr.2 ++ er.2 }

/-! ## `scoreAll` -/

def severityOrder : FindingSeverity → Nat
  | .high => 0
  | .med => 1
  | .low => 2
  | .pass => 3

structure ScoreAllResult where
  categories : List CategoryResult
  overallScore : Int
  topFindings : List Finding
deriving DecidableEq, Repr

/-- `scoreAll(pages, chunks, aiFiles, jsRendered)`.  JS `Array.prototype.sort`
is stable (ES2019), modelled by the stable `List.insertionSort`. -/
def scoreAll (pages : List ExtractedPage) (chunks : List ContentChunk)
    (aiFiles : AIDiscoveryFiles) (jsRendered : Bool) : ScoreAllResult :=
  let categories : List CategoryResult :=
    [scoreAICrawlAccessibility aiFiles pages,
     scoreStructuredDataAndMachineReadability pages,
     scoreContentSelfContainment pages chunks jsRendered,
     scoreDocumentationArchitecture pages]
  let totalScore : Int := (categories.map (fun cat => cat.score)).sum
  let maxTotal : Int := (categories.map (fun cat => cat.max)).sum
  let overallScore : Int := round ((totalScore : ℚ) / (maxTotal : ℚ) * 100)
  let allFindings := categories.flatMap
    (fun cat => cat.findings.map (fun f => { f with category := some cat.name }))
  let issueFindings := allFindings.filter (fun f => decide (f.severity ≠ .pass))
  let sortedFindings := issueFindings.insertionSort
    (fun a b => severityOrder a.severity ≤ severityOrder b.severity)
  { categories := categories, overallScore := overallScore,
    topFindings := sortedFindings.take 10 }

/-! ## Scorer bounds (C6, C7, C9) -/

theorem ite_int_nonneg {c : Prop} [Decidable c] {a b : Int} (ha : 0 ≤ a) (hb : 0 ≤ b) :
    0 ≤ if c then a else b := by
  split
  · exact ha
  · exact hb

theorem llmsTxtFindings_nonneg (a : LlmsTxtInfo) : 0 ≤ (llmsTxtFindings a).1 := by
  unfold llmsTxtFindings
  split
  · norm_num
  · refine add_nonneg (add_nonneg ?_ ?_) ?_ <;>
      exact ite_int_nonneg (by norm_num) (by norm_num)

theorem robotsTxtFindings_nonneg (r : RobotsTxtInfo) : 0 ≤ (robotsTxtFindings r).1 := by
  unfold robotsTxtFindings
  split
  · norm_num
  · refine add_nonneg ?_ ?_
    · exact ite_int_nonneg (by norm_num) (ite_int_nonneg (by norm_num) (by norm_num))
    · exact ite_int_nonneg (by norm_num) (by norm_num)

theorem sitemapFindings_nonneg (s : SitemapInfo) (pages : List ExtractedPage) :
    0 ≤ (sitemapFindings s pages).1 := by
  unfold sitemapFindings
  split
  · norm_num
  · refine add_nonneg ?_ ?_ <;> exact ite_int_nonneg (by norm_num) (by norm_num)

theorem scoreAICrawlAccessibility_bounds (aiFiles : AIDiscoveryFiles)
    (pages : List ExtractedPage) :
    0 ≤ (scoreAICrawlAccessibility aiFiles pages).score ∧
    (scoreAICrawlAccessibility aiFiles pages).score ≤ 20 ∧
    (scoreAICrawlAccessibility aiFiles pages).max = 20 := by
  refine ⟨le_max_left 0 _, ?_, rfl⟩
  apply max_le (by norm_num)
  have h1 := llmsTxtFindings_nonneg aiFiles.llmsTxt
  have h2 := robotsTxtFindings_nonneg aiFiles.robotsTxt
  have h3 := sitemapFindings_nonneg aiFiles.sitemap pages
  show MAX_CATEGORY_SCORE - _ - _ - _ ≤ 20
  unfold MAX_CATEGORY_SCORE
  omega

theorem jsonLdBlock_nonneg (v : List ExtractedPage) : 0 ≤ (jsonLdBlock v).1 := by
  simp only [jsonLdBlock]
  split
  · split <;> norm_num
  · split <;> norm_num

theorem richTypesBlock_nonneg (v : List ExtractedPage) : 0 ≤ (richTypesBlock v).1 := by
  simp only [richTypesBlock]
  split
  · norm_num
  · split <;> norm_num

theorem openAPIBlock_nonneg (v : List ExtractedPage) : 0 ≤ (openAPIBlock v).1 := by
  simp only [openAPIBlock]
  split
  · split <;> norm_num
  · norm_num

theorem scoreStructuredData_bounds (pages : List ExtractedPage) :
    0 ≤ (scoreStructuredDataAndMachineReadability pages).score ∧
    (scoreStructuredDataAndMachineReadability pages).score ≤ 20 ∧
    (scoreStructuredDataAndMachineReadability pages).max = 20 := by
  simp only [scoreStructuredDataAndMachineReadability]
  split
  · exact ⟨le_refl 0, by norm_num, rfl⟩
  · refine ⟨le_max_left 0 _, ?_, rfl⟩
    apply max_le (by norm_num)
    have h1 := jsonLdBlock_nonneg (pages.filter (fun p => decide (p.error = none)))
    have h2 := richTypesBlock_nonneg (pages.filter (fun p => decide (p.error = none)))
    have h3 := openAPIBlock_nonneg (pages.filter (fun p => decide (p.error = none)))
    show MAX_CATEGORY_SCORE - _ - _ - _ ≤ 20
    unfold MAX_CATEGORY_SCORE
    omega

theorem min_ceil_nonneg {cap : Int} (hcap : 0 ≤ cap) {q : ℚ} (hq : 0 ≤ q) :
    0 ≤ min cap ⌈q⌉ :=
  le_min hcap (Int.ceil_nonneg hq)

theorem ratio_mul_nonneg (a b : Nat) (k : ℚ) (hk : 0 ≤ k) :
    0 ≤ ((a : ℚ) / (b : ℚ)) * k :=
  mul_nonneg (div_nonneg (Nat.cast_nonneg a) (Nat.cast_nonneg b)) hk

theorem thinContentBlock_nonneg (v : List ExtractedPage) (j : Bool) :
    0 ≤ (thinContentBlock v j).1 := by
  simp only [thinContentBlock]
  split
  · norm_num
  · split
    · exact min_ceil_nonneg (by norm_num) (ratio_mul_nonneg _ _ 10 (by norm_num))
    · norm_num

theorem chunkSizeBlocks_nonneg (chunks : List ContentChunk) :
    0 ≤ (chunkSizeBlocks chunks).1 := by
  simp only [chunkSizeBlocks]
  refine add_nonneg ?_ ?_
  · exact ite_int_nonneg
      (min_ceil_nonneg (by norm_num) (ratio_mul_nonneg _ _ 6 (by norm_num))) (by norm_num)
  · exact ite_int_nonneg (by norm_num) (by norm_num)

theorem scoreContentSelfContainment_bounds (pages : List ExtractedPage)
    (chunks : List ContentChunk) (j : Bool) :
    0 ≤ (scoreContentSelfContainment pages chunks j).score ∧
    (scoreContentSelfContainment pages chunks j).score ≤ 20 ∧
    (scoreContentSelfContainment pages chunks j).max = 20 := by
  simp only [scoreContentSelfContainment]
  split
  · exact ⟨le_refl 0, by norm_num, rfl⟩
  · refine ⟨le_max_left 0 _, ?_, rfl⟩
    apply max_le (by norm_num)
    have h1 := thinContentBlock_nonneg (pages.filter (fun p => decide (p.error = none))) j
    have h2 := chunkSizeBlocks_nonneg chunks
    show MAX_CATEGORY_SCORE - _ - _ ≤ 20
    unfold MAX_CATEGORY_SCORE
    omega

theorem internalLinksBlock_nonneg (v : List ExtractedPage) :
    0 ≤ (internalLinksBlock v).1 := by
  simp only [internalLinksBlock]
  split
  · norm_num
  · split <;> norm_num

theorem badH1Block_nonneg (v : List ExtractedPage) : 0 ≤ (badH1Block v).1 := by
  simp only [badH1Block]
  split
  · exact min_ceil_nonneg (by norm_num) (ratio_mul_nonneg _ _ 8 (by norm_num))
  · norm_num

theorem skippedLevelsBlock_nonneg (v : List ExtractedPage) :
    0 ≤ (skippedLevelsBlock v).1 := by
  simp only [skippedLevelsBlock]
  split <;> norm_num

theorem freshnessBlock_nonneg (v : List ExtractedPage) : 0 ≤ (freshnessBlock v).1 := by
  simp only [freshnessBlock]
  split <;> norm_num

theorem errorRateBlock_nonneg (pages : List ExtractedPage) : 0 ≤ (errorRateBlock pages).1 := by
  simp only [errorRateBlock]
  split <;> norm_num

theorem scoreDocumentationArchitecture_bounds (pages : List ExtractedPage) :
    0 ≤ (scoreDocumentationArchitecture pages).score ∧
    (scoreDocumentationArchitecture pages).score ≤ 20 ∧
    (scoreDocumentationArchitecture pages).max = 20 := by
  simp only [scoreDocumentationArchitecture]
  split
  · exact ⟨le_refl 0, by norm_num, rfl⟩
  · refine ⟨le_max_left 0 _, ?_, rfl⟩
    apply max_le (by norm_num)
    have h1 := internalLinksBlock_nonneg (pages.filter (fun p => decide (p.error = none)))
    have h2 := badH1Block_nonneg (pages.filter (fun p => decide (p.error = none)))
    have h3 := skippedLevelsBlock_nonneg (pages.filter (fun p => decide (p.error = none)))
    have h4 := freshnessBlock_nonneg (pages.filter (fun p => decide (p.error = none)))
    have h5 := errorRateBlock_nonneg pages
    show MAX_CATEGORY_SCORE - _ - _ - _ - _ - _ ≤ 20
    unfold MAX_CATEGORY_SCORE
    omega

theorem round_div80_bounds (t : Int) (h0 : 0 ≤ t) (h80 : t ≤ 80) :
    0 ≤ round ((t : ℚ) / (80 : ℚ) * 100) ∧
      round ((t : ℚ) / (80 : ℚ) * 100) ≤ 100 := by
  have ht0 : (0 : ℚ) ≤ (t : ℚ) := by exact_mod_cast h0
  have ht80 : (t : ℚ) ≤ 80 := by exact_mod_cast h80
  have hx0 : (0 : ℚ) ≤ (t : ℚ) / (80 : ℚ) * 100 := by
    apply mul_nonneg (div_nonneg ht0 (by norm_num)) (by norm_num)
  have hx100 : (t : ℚ) / (80 : ℚ) * 100 ≤ 100 := by
    rw [div_mul_eq_mul_div, div_le_iff₀ (by norm_num : (0:ℚ) < (80 : ℚ))]
    linarith
  constructor
  · rw [round_eq]
    exact Int.le_floor.2 (by push_cast; linarith)
  · rw [round_eq]
    calc ⌊(t : ℚ) / (80 : ℚ) * 100 + 1/2⌋ ≤ ⌊(100 : ℚ) + 1/2⌋ :=
        Int.floor_le_floor (by linarith)
      _ = 100 := by norm_num

/-- C6: every category returned by `scoreAll` has `0 ≤ score ≤ 20` with
`max = 20`, and the overall score is in `[0, 100]`, for every input. -/
theorem scoreAll_bounds (pages : List ExtractedPage) (chunks : List ContentChunk)
    (aiFiles : AIDiscoveryFiles) (jsRendered : Bool) :
    (∀ cat ∈ (scoreAll pages chunks aiFiles jsRendered).categories,
      0 ≤ cat.score ∧ cat.score ≤ 20 ∧ cat.max = 20) ∧
    0 ≤ (scoreAll pages chunks aiFiles jsRendered).overallScore ∧
    (scoreAll pages chunks aiFiles jsRendered).overallScore ≤ 100 := by
  have b1 := scoreAICrawlAccessibility_bounds aiFiles pages
  have b2 := scoreStructuredData_bounds pages
  have b3 := scoreContentSelfContainment_bounds pages chunks jsRendered
  have b4 := scoreDocumentationArchitecture_bounds pages
  constructor
  · intro cat hcat
    have hcats : (scoreAll pages chunks aiFiles jsRendered).categories =
        [scoreAICrawlAccessibility aiFiles pages,
         scoreStructuredDataAndMachineReadability pages,
         scoreContentSelfContainment pages chunks jsRendered,
         scoreDocumentationArchitecture pages] := rfl
    rw [hcats] at hcat
    simp only [List.mem_cons, List.not_mem_nil, or_false] at hcat
    rcases hcat with rfl | rfl | rfl | rfl
    · exact b1
    · exact b2
    · exact b3
    · exact b4
  · have hover : (scoreAll pages chunks aiFiles jsRendered).overallScore =
        round ((((((scoreAll pages chunks aiFiles jsRendered).categories.map
            (fun cat => cat.score)).sum : ℤ) : ℚ) /
          (((((scoreAll pages chunks aiFiles jsRendered).categories.map
            (fun cat => cat.max)).sum : ℤ) : ℚ))) * 100) := rfl
    have hcats2 : (scoreAll pages chunks aiFiles jsRendered).categories =
        [scoreAICrawlAccessibility aiFiles pages,
         scoreStructuredDataAndMachineReadability pages,
         scoreContentSelfContainment pages chunks jsRendered,
         scoreDocumentationArchitecture pages] := rfl
    rw [hover, hcats2]
    simp only [List.map_cons, List.map_nil, List.sum_cons, List.sum_nil]
    rw [b1.2.2, b2.2.2, b3.2.2, b4.2.2]
    have h80 : ((20 + (20 + (20 + (20 + 0))) : ℤ) : ℚ) = (80 : ℚ) := by norm_num
    rw [h80]
    refine round_div80_bounds _ ?_ ?_
    · have n1 := b1.1
      have n2 := b2.1
      have n3 := b3.1
      have n4 := b4.1
      omega
    · have s1 := b1.2.1
      have s2 := b2.2.1
      have s3 := b3.2.1
      have s4 := b4.2.1
      omega

/-- Witness: `scoreAll_bounds` applied at a concrete input (empty crawl,
no AI discovery files). -/
theorem scoreAll_bounds_witness :
    0 ≤ (scoreAll [] []
      ⟨⟨false, none, false, false, false⟩, ⟨false, none, false, false, false, []⟩,
       ⟨false, 0, false, 0⟩, ⟨false, none⟩⟩ false).overallScore ∧
    (scoreAll [] []
      ⟨⟨false, none, false, false, false⟩, ⟨false, none, false, false, false, []⟩,
       ⟨false, 0, false, 0⟩, ⟨false, none⟩⟩ false).overallScore ≤ 100 :=
  (scoreAll_bounds [] []
    ⟨⟨false, none, false, false, false⟩, ⟨false, none, false, false, false, []⟩,
     ⟨false, 0, false, 0⟩, ⟨false, none⟩⟩ false).2

/-- C7: `topFindings` contains no pass-severity finding, has at most 10
entries, and is ordered by severity rank (high before med before low). -/
theorem scoreAll_topFindings (pages : List ExtractedPage) (chunks : List ContentChunk)
    (aiFiles : AIDiscoveryFiles) (jsRendered : Bool) :
    (∀ f ∈ (scoreAll pages chunks aiFiles jsRendered).topFindings,
      f.severity ≠ FindingSeverity.pass) ∧
    (scoreAll pages chunks aiFiles jsRendered).topFindings.length ≤ 10 ∧
    (scoreAll pages chunks aiFiles jsRendered).topFindings.Pairwise
      (fun a b => severityOrder a.severity ≤ severityOrder b.severity) := by
  haveI instTot : IsTotal Finding
      (fun a b => severityOrder a.severity ≤ severityOrder b.severity) :=
    ⟨fun a b => Nat.le_total _ _⟩
  haveI instTr : IsTrans Finding
      (fun a b => severityOrder a.severity ≤ severityOrder b.severity) :=
    ⟨fun _ _ _ hab hbc => Nat.le_trans hab hbc⟩
  have htop : (scoreAll pages chunks aiFiles jsRendered).topFindings =
      ((((scoreAll pages chunks aiFiles jsRendered).categories.flatMap
          (fun cat => cat.findings.map (fun f => { f with category := some cat.name }))).filter
        (fun f => decide (f.severity ≠ FindingSeverity.pass))).insertionSort
        (fun a b => severityOrder a.severity ≤ severityOrder b.severity)).take 10 := rfl
  refine ⟨?_, ?_, ?_⟩
  · intro f hf
    rw [htop] at hf
    have hf2 := List.take_subset 10 _ hf
    have hf3 := (List.perm_insertionSort
      (fun a b : Finding => severityOrder a.severity ≤ severityOrder b.severity) _).subset hf2
    have := List.of_mem_filter hf3
    simpa using this
  · rw [htop]
    exact List.length_take_le 10 _
  · rw [htop]
    exact (List.sorted_insertionSort
      (fun a b : Finding => severityOrder a.severity ≤ severityOrder b.severity) _).sublist
      (List.take_sublist 10 _)

/-- An `AIDiscoveryFiles` record with every discovery file absent. -/
def noAIFiles : AIDiscoveryFiles :=
  ⟨⟨false, none, false, false, false⟩, ⟨false, none, false, false, false, []⟩,
   ⟨false, 0, false, 0⟩, ⟨false, none⟩⟩

/-- C9 (amended): when the pages list contains zero non-errored pages, the three
page-dependent category scorers return score 0 with empty findings; the
AI-crawl-accessibility category is still scored from the discovery files. -/
theorem scoreAll_zero_valid_pages (pages : List ExtractedPage) (chunks : List ContentChunk)
    (aiFiles : AIDiscoveryFiles) (jsRendered : Bool)
    (h : pages.filter (fun p => decide (p.error = none)) = []) :
    (scoreAll pages chunks aiFiles jsRendered).categories =
      [scoreAICrawlAccessibility aiFiles pages,
       ⟨"Structured Data & Machine Readability", 0, MAX_CATEGORY_SCORE, []⟩,
       ⟨"Content Self-Containment", 0, MAX_CATEGORY_SCORE, []⟩,
       ⟨"Documentation Architecture", 0, MAX_CATEGORY_SCORE, []⟩] := by
  have h2 : scoreStructuredDataAndMachineReadability pages =
      ⟨"Structured Data & Machine Readability", 0, MAX_CATEGORY_SCORE, []⟩ := by
    simp only [scoreStructuredDataAndMachineReadability, h]
    rfl
  have h3 : scoreContentSelfContainment pages chunks jsRendered =
      ⟨"Content Self-Containment", 0, MAX_CATEGORY_SCORE, []⟩ := by
    simp only [scoreContentSelfContainment, h]
    rfl
  have h4 : scoreDocumentationArchitecture pages =
      ⟨"Documentation Architecture", 0, MAX_CATEGORY_SCORE, []⟩ := by
    simp only [scoreDocumentationArchitecture, h]
    rfl
  show [scoreAICrawlAccessibility aiFiles pages,
    scoreStructuredDataAndMachineReadability pages,
    scoreContentSelfContainment pages chunks jsRendered,
    scoreDocumentationArchitecture pages] = _
  rw [h2, h3, h4]

/-- C9 counterexample: with zero pages and all AI discovery files absent, the
AI-crawl-accessibility category still deducts for the missing files, so its
score is 7 (not 0), its findings are non-empty, and the overall score is 9
(not 0). -/
theorem scoreAll_zero_pages_cex :
    (scoreAll [] [] noAIFiles false).overallScore = 9 ∧
    ¬ (∀ cat ∈ (scoreAll [] [] noAIFiles false).categories,
        cat.score = 0 ∧ cat.findings = []) := by
  constructor
  · have hred : (scoreAll [] [] noAIFiles false).overallScore =
        round ((((7 : ℤ) : ℚ)) / (((80 : ℤ) : ℚ)) * 100) := rfl
    rw [hred]
    norm_num [round_eq]
  · intro hall
    have hmem : scoreAICrawlAccessibility noAIFiles [] ∈
        (scoreAll [] [] noAIFiles false).categories := by
      have hc : (scoreAll [] [] noAIFiles false).categories =
          scoreAICrawlAccessibility noAIFiles [] ::
            [scoreStructuredDataAndMachineReadability [],
             scoreContentSelfContainment [] [] false,
             scoreDocumentationArchitecture []] := rfl
      rw [hc]
      exact List.mem_cons_self _ _
    have hz := (hall _ hmem).1
    have h7 : (scoreAICrawlAccessibility noAIFiles []).score = 7 := by decide
    omega

/-- Witness: `scoreAll_zero_valid_pages` applied at a concrete empty crawl. -/
theorem scoreAll_zero_valid_pages_witness :
    (scoreAll [] [] noAIFiles false).categories =
      [scoreAICrawlAccessibility noAIFiles [],
       ⟨"Structured Data & Machine Readability", 0, MAX_CATEGORY_SCORE, []⟩,
       ⟨"Content Self-Containment", 0, MAX_CATEGORY_SCORE, []⟩,
       ⟨"Documentation Architecture", 0, MAX_CATEGORY_SCORE, []⟩] :=
  scoreAll_zero_valid_pages [] [] noAIFiles false rfl

/-! ## `fetchWithTimeout` (crawler, complete variant)

The network is an oracle `net : Nat → String → Option HttpResp` (indexed by the
remaining redirect budget, so responses may differ per hop); `none` models the
`fetch` call throwing (network error or abort).  `new URL(location, currentUrl)`
is the external WHATWG URL resolver, an oracle `resolve : String → String →
String`.  The trace records, in program order, every SSRF check with its
outcome and every HTTP request issued. -/

def MAX_REDIRECTS : Nat := 5

structure HttpResp where
  status : Nat
  location : Option String
  contentType : Option String
  body : String
deriving DecidableEq, Repr

inductive FetchEv where
  | check (url : String) (safe : Bool)
  | request (url : String)
deriving DecidableEq, Repr

/-- The `while (redirectCount < MAX_REDIRECTS)` loop of `fetchWithTimeout`,
with `fuel = MAX_REDIRECTS - redirectCount`.  Returns the result paired with
the event trace. -/
def fetchGo (dns : String → List String) (resolve : String → String → String)
    (net : Nat → String → Option HttpResp) :
    Nat → String → Except String (String × Nat) × List FetchEv
  | 0, _ => (.error "Too many redirects", [])
  | fuel + 1, currentUrl =>
    let ssrfCheck := isSSRFSafe dns currentUrl
    if ¬ ssrfCheck.safe then
      (.error ("SSRF protection: " ++ ssrfCheck.reason.getD ""),
       [.check currentUrl false])
    else
      match net (fuel + 1) currentUrl with
      | none =>
        (.error "Unknown fetch error",
         [.check currentUrl true, .request currentUrl])
      | some response =>
        if 300 ≤ response.status ∧ response.status < 400 then
          match response.location with
          | none =>
            (.error "Redirect without location header",
             [.check currentUrl true, .request currentUrl])
          | some location =>
            let p := fetchGo dns resolve net fuel (resolve location currentUrl)
            (p.1, .check currentUrl true :: .request currentUrl :: p.2)
        else
          let contentType := response.contentType.getD ""
          if ¬ (jsIncludes contentType "text/html" ||
                jsIncludes contentType "application/xhtml") then
            (.error ("Non-HTML content type: " ++ contentType),
             [.check currentUrl true, .request currentUrl])
          else
            (.ok (response.body, response.status),
             [.check currentUrl true, .request currentUrl])

def fetchWithTimeout (dns : String → List String)
    (resolve : String → String → String)
    (net : Nat → String → Option HttpResp) (url : String) :
    Except String (String × Nat) × List FetchEv :=
  fetchGo dns resolve net MAX_REDIRECTS url

/-- Every `request u` event is immediately preceded by a `check u true`
event for the same URL `u`. -/
def checkedBefore : List FetchEv → Bool
  | [] => true
  | .request _ :: _ => false
  | .check u true :: .request u2 :: rest => decide (u2 = u) && checkedBefore rest
  | .check _ _ :: .request _ :: _ => false
  | .check _ _ :: rest => checkedBefore rest

def countRequests : List FetchEv → Nat
  | [] => 0
  | .request _ :: rest => countRequests rest + 1
  | .check _ _ :: rest => countRequests rest

theorem fetchGo_spec (dns : String → List String)
    (resolve : String → String → String)
    (net : Nat → String → Option HttpResp) (fuel : Nat) (url : String) :
    checkedBefore (fetchGo dns resolve net fuel url).2 = true ∧
    countRequests (fetchGo dns resolve net fuel url).2 ≤ fuel := by
  induction fuel generalizing url with
  | zero => exact ⟨rfl, Nat.le_refl 0⟩
  | succ fuel ih =>
    simp only [fetchGo]
    split
    · exact ⟨rfl, by simp [countRequests]⟩
    · split
      · exact ⟨by simp [checkedBefore], by simp [countRequests]⟩
      · split
        · split
          · exact ⟨by simp [checkedBefore], by simp [countRequests]⟩
          · refine ⟨?_, ?_⟩
            · show checkedBefore (.check url true :: .request url ::
                (fetchGo dns resolve net fuel _).2) = true
              simp only [checkedBefore, decide_True, Bool.true_and]
              exact (ih _).1
            · show countRequests (.check url true :: .request url ::
                (fetchGo dns resolve net fuel _).2) ≤ fuel + 1
              simp only [countRequests]
              exact Nat.succ_le_succ (ih _).2
        · split
          · exact ⟨by simp [checkedBefore], by simp [countRequests]⟩
          · exact ⟨by simp [checkedBefore], by simp [countRequests]⟩

/-- C2: on every network behaviour and every redirect chain, `fetchWithTimeout`
issues an HTTP request only to URLs for which the SSRF check returned safe
immediately beforehand (the initial URL and every redirect target alike), and
it issues at most `MAX_REDIRECTS = 5` requests: once five redirects have been
followed the next iteration returns the error `"Too many redirects"` without a
further check or request. -/
theorem fetchWithTimeout_ssrf_guard (dns : String → List String)
    (resolve : String → String → String)
    (net : Nat → String → Option HttpResp) (url : String) :
    checkedBefore (fetchWithTimeout dns resolve net url).2 = true ∧
    countRequests (fetchWithTimeout dns resolve net url).2 ≤ MAX_REDIRECTS ∧
    (fetchGo dns resolve net 0 url =
      (.error "Too many redirects", [])) :=
  ⟨(fetchGo_spec dns resolve net MAX_REDIRECTS url).1,
   (fetchGo_spec dns resolve net MAX_REDIRECTS url).2, rfl⟩

/-! ## Crawler (complete variant): `crawlSite`

External effects are oracles bundled in `CrawlWorld`: DNS resolution, the
WHATWG URL resolver (`new URL(location, base).toString()`), the network, the
cheerio DOM queries of `extractPageData`, and `fetchSitemap` (network plus
`<loc>` regex scanning, whose output list is all the crawler consumes).
`Promise.all` resolves in dispatch order; the arrival-order nondeterminism of
the event loop is modelled by the per-batch permutation `sched` applied to the
batch results before the crawler re-sorts them. -/

/-- Lexicographic code-unit comparison, the model of
`a.localeCompare(b) <= 0` used by the crawler's deterministic sorts. -/
def strLeList : List Char → List Char → Bool
  | [], _ => true
  | _ :: _, [] => false
  | a :: as, b :: bs =>
    if a.toNat < b.toNat then true
    else if b.toNat < a.toNat then false
    else strLeList as bs

def strLe (a b : String) : Bool := strLeList a.data b.data

structure VisitItem where
  url : String
  depth : Nat
deriving DecidableEq, Repr

structure CrawlResult where
  pages : List ExtractedPage
  errorCount : Nat
  skippedCount : Nat
deriving DecidableEq, Repr

structure AuditConfig where
  url : String
  maxPages : Nat
  maxDepth : Nat
  concurrency : Nat
deriving DecidableEq, Repr

/-- The cheerio-derived signals of `extractPageData`. -/
structure PageSignals where
  title : Option String
  canonical : Option String
  metaDescription : Option String
  headings : List PageHeading
  codeBlocks : List CodeBlock
  internalLinks : List String
  mainContent : String
  jsonLdTypes : List String
  jsonLdHasFAQ : Bool
  faqItems : List FAQItem
  hasOpenAPILink : Bool
  openAPIUrl : Option String
  hasPrerequisites : Bool
  externalLinkCount : Nat
  codeLanguages : List String
  scriptCount : Nat
deriving DecidableEq, Repr

structure CrawlWorld where
  dns : String → List String
  resolve : String → String → String
  net : Nat → String → Option HttpResp
  dom : String → String → PageSignals
  sitemap : String → List String
  urlJoin : String → String → Option String

/-- `extractPageData(html, url, statusCode)`: the DOM queries are the `dom`
oracle; the record assembly and the derived fields (`hasJsonLd`,
`internalLinkCount`, `htmlSize`, `textToHtmlRatio`) are from source.  No
`error` key is set on an extracted page. -/
def extractPageData (dom : String → String → PageSignals)
    (html url : String) (statusCode : Nat) : ExtractedPage :=
  let s := dom html url
  { url := url, title := s.title, canonical := s.canonical,
    metaDescription := s.metaDescription, headings := s.headings,
    codeBlocks := s.codeBlocks, internalLinks := s.internalLinks,
    mainContent := s.mainContent, rawHtml := html, statusCode := statusCode,
    error := none, hasJsonLd := decide (0 < s.jsonLdTypes.length),
    jsonLdTypes := s.jsonLdTypes, hasFAQSchema := s.jsonLdHasFAQ,
    faqItems := s.faqItems, hasOpenAPILink := s.hasOpenAPILink,
    openAPIUrl := s.openAPIUrl, hasPrerequisites := s.hasPrerequisites,
    internalLinkCount := s.internalLinks.length,
    externalLinkCount := s.externalLinkCount,
    codeLanguages := s.codeLanguages, scriptCount := s.scriptCount,
    htmlSize := html.length,
    textToHtmlRatio := (s.mainContent.length : ℚ) / ((max 1 html.length : Nat) : ℚ) }

/-- The all-defaults page built by `processUrl` when the fetch failed. -/
def errorPage (url e : String) : ExtractedPage :=
  { url := url, title := none, canonical := none, metaDescription := none,
    headings := [], codeBlocks := [], internalLinks := [], mainContent := "",
    rawHtml := "", statusCode := 0, error := some e, hasJsonLd := false,
    jsonLdTypes := [], hasFAQSchema := false, faqItems := [],
    hasOpenAPILink := false, openAPIUrl := none, hasPrerequisites := false,
    internalLinkCount := 0, externalLinkCount := 0, codeLanguages := [],
    scriptCount := 0, htmlSize := 0, textToHtmlRatio := 0 }

/-- `normalizeUrl(link, base)`: resolve against the base via the WHATWG
oracle, then run the same normalization pipeline on the absolute URL. -/
def normalizeUrlFrom (w : CrawlWorld) (link base : String) : Option String :=
  (w.urlJoin link base).bind normalizeUrl

/-- `processUrl(item)` of `crawlSite`.  `none` means the SSRF check skipped
the URL. -/
def processUrl (w : CrawlWorld) (item : VisitItem) :
    VisitItem × Option ExtractedPage :=
  let ssrf := isSSRFSafe w.dns item.url
  if ¬ ssrf.safe then (item, none)
  else
    match (fetchGo w.dns w.resolve w.net MAX_REDIRECTS item.url).1 with
    | .error e => (item, some (errorPage item.url e))
    | .ok (html, statusCode) =>
      (item, some (extractPageData w.dom html item.url statusCode))

structure CrawlState where
  visited : List String
  toVisit : List VisitItem
  pages : List ExtractedPage
  errorCount : Nat
  skippedCount : Nat
deriving Repr

/-- Link-discovery body: one `link` of `result.internalLinks`. -/
def addLink (w : CrawlWorld) (rootUrl : String) (maxPages depth : Nat)
    (base : String) (st : CrawlState) (link : String) : CrawlState :=
  match normalizeUrlFrom w link base with
  | none => st
  | some n =>
    if isSameOrigin n rootUrl && ! st.visited.contains n &&
        decide (st.toVisit.length + st.pages.length < maxPages * 2) then
      { st with
        visited := n :: st.visited,
        toVisit := st.toVisit ++ [⟨n, depth + 1⟩] }
    else st

/-- The `for (const { item, result } of results)` body. -/
def acceptResult (w : CrawlWorld) (rootUrl : String) (cfg : AuditConfig)
    (st : CrawlState) (r : VisitItem × Option ExtractedPage) : CrawlState :=
  match r.2 with
  | none => st
  | some page =>
    if st.pages.length < cfg.maxPages then
      let st2 := { st with pages := st.pages ++ [page] }
      if page.error = none ∧ r.1.depth < cfg.maxDepth then
        page.internalLinks.foldl
          (addLink w rootUrl cfg.maxPages r.1.depth r.1.url) st2
      else st2
    else st

def countSkipped (results : List (VisitItem × Option ExtractedPage)) : Nat :=
  results.countP (fun r => r.2.isNone)

def countErrored (results : List (VisitItem × Option ExtractedPage)) : Nat :=
  results.countP (fun r =>
    match r.2 with
    | some p => decide (p.error ≠ none)
    | none => false)

/-- The `while (toVisit.length > 0 && pages.length < maxPages)` loop.  JS
guarantees progress only for `concurrency >= 1`; `fuel` bounds the iteration
count in the model. -/
def crawlLoop (w : CrawlWorld)
    (sched : Nat → List (VisitItem × Option ExtractedPage) →
      List (VisitItem × Option ExtractedPage))
    (cfg : AuditConfig) (rootUrl : String) :
    Nat → CrawlState → CrawlState
  | 0, st => st
  | fuel + 1, st =>
    if st.toVisit = [] ∨ cfg.maxPages ≤ st.pages.length then st
    else
      let sorted := st.toVisit.insertionSort
        (fun a b => strLe a.url b.url = true)
      let remaining := cfg.maxPages - st.pages.length
      let k := min cfg.concurrency remaining
      let batch := sorted.take k
      let rest := sorted.drop k
      let arrived := sched fuel (batch.map (processUrl w))
      let results := arrived.insertionSort
        (fun a b => strLe a.1.url b.1.url = true)
      let st2 : CrawlState :=
        { st with
          toVisit := rest,
          errorCount := st.errorCount + countErrored arrived,
          skippedCount := st.skippedCount + countSkipped arrived }
      crawlLoop w sched cfg rootUrl fuel
        (results.foldl (acceptResult w rootUrl cfg) st2)

/-- Sitemap-seeding body: one candidate URL from a fetched sitemap. -/
def addSeed (rootUrl : String) (acc : List String × List VisitItem)
    (url : String) : List String × List VisitItem :=
  match normalizeUrl url with
  | none => acc
  | some n =>
    if isSameOrigin n rootUrl && ! acc.1.contains n then
      (n :: acc.1, acc.2 ++ [⟨n, getPathDepth n rootUrl⟩])
    else acc

/-- The sitemap loop with its `if (toVisit.length > 0) break`. -/
def seedLoop (w : CrawlWorld) (rootUrl : String) :
    List String → List String × List VisitItem → List String × List VisitItem
  | [], acc => acc
  | s :: restSitemaps, acc =>
    let acc2 := (w.sitemap s).foldl (addSeed rootUrl) acc
    if 0 < acc2.2.length then acc2 else seedLoop w rootUrl restSitemaps acc2

/-- `crawlSite(config)`.  `Except.error` models the two `throw new Error`
paths. -/
def crawlSite (w : CrawlWorld)
    (sched : Nat → List (VisitItem × Option ExtractedPage) →
      List (VisitItem × Option ExtractedPage))
    (fuel : Nat) (cfg : AuditConfig) : Except String CrawlResult :=
  let ssrfCheck := isSSRFSafe w.dns cfg.url
  if ¬ ssrfCheck.safe then
    .error ("SSRF protection: " ++ ssrfCheck.reason.getD "")
  else
    match normalizeUrl cfg.url with
    | none => .error "Invalid root URL"
    | some rootUrl =>
      let seeded := seedLoop w rootUrl (getSitemapUrls rootUrl) ([], [])
      let seeded2 :=
        match normalizeUrl rootUrl with
        | some rn =>
          if ! seeded.1.contains rn then
            (rn :: seeded.1, (⟨rn, 0⟩ : VisitItem) :: seeded.2)
          else seeded
        | none => seeded
      let final := crawlLoop w sched cfg rootUrl fuel
        ⟨seeded2.1, seeded2.2, [], 0, 0⟩
      .ok ⟨final.pages.insertionSort (fun a b => strLe a.url b.url = true),
           final.errorCount, final.skippedCount⟩

theorem addLink_pages (w : CrawlWorld) (rt : String) (mp d : Nat) (b : String)
    (st : CrawlState) (link : String) :
    (addLink w rt mp d b st link).pages = st.pages := by
  unfold addLink
  cases normalizeUrlFrom w link b with
  | none => rfl
  | some n =>
    dsimp only
    split <;> rfl

theorem foldl_addLink_pages (w : CrawlWorld) (rt : String) (mp d : Nat)
    (b : String) (links : List String) (st : CrawlState) :
    (links.foldl (addLink w rt mp d b) st).pages = st.pages := by
  induction links generalizing st with
  | nil => rfl
  | cons l ls ih => rw [List.foldl_cons, ih, addLink_pages]

theorem acceptResult_pages_le (w : CrawlWorld) (rt : String) (cfg : AuditConfig)
    (st : CrawlState) (r : VisitItem × Option ExtractedPage)
    (h : st.pages.length ≤ cfg.maxPages) :
    (acceptResult w rt cfg st r).pages.length ≤ cfg.maxPages := by
  unfold acceptResult
  cases r.2 with
  | none => exact h
  | some page =>
    dsimp only
    by_cases hlt : st.pages.length < cfg.maxPages
    · rw [if_pos hlt]
      by_cases hd : page.error = none ∧ r.1.depth < cfg.maxDepth
      · rw [if_pos hd, foldl_addLink_pages]
        show (st.pages ++ [page]).length ≤ cfg.maxPages
        simp only [List.length_append, List.length_singleton]
        omega
      · rw [if_neg hd]
        show (st.pages ++ [page]).length ≤ cfg.maxPages
        simp only [List.length_append, List.length_singleton]
        omega
    · rw [if_neg hlt]
      exact h

theorem foldl_accept_pages_le (w : CrawlWorld) (rt : String) (cfg : AuditConfig)
    (rs : List (VisitItem × Option ExtractedPage)) (st : CrawlState)
    (h : st.pages.length ≤ cfg.maxPages) :
    ((rs.foldl (acceptResult w rt cfg) st).pages.length ≤ cfg.maxPages) := by
  induction rs generalizing st with
  | nil => exact h
  | cons r rs ih =>
    rw [List.foldl_cons]
    exact ih _ (acceptResult_pages_le w rt cfg st r h)

theorem crawlLoop_pages_le (w : CrawlWorld)
    (sched : Nat → List (VisitItem × Option ExtractedPage) →
      List (VisitItem × Option ExtractedPage))
    (cfg : AuditConfig) (rt : String) (fuel : Nat) (st : CrawlState)
    (h : st.pages.length ≤ cfg.maxPages) :
    (crawlLoop w sched cfg rt fuel st).pages.length ≤ cfg.maxPages := by
  induction fuel generalizing st with
  | zero => exact h
  | succ fuel ih =>
    simp only [crawlLoop]
    split
    · exact h
    · exact ih _ (foldl_accept_pages_le w rt cfg _ _ h)

/-- C1: for every config, every network/DOM behaviour, every arrival schedule
and every fuel, a successful `crawlSite` returns at most `maxPages` pages:
each batch push is guarded by `pages.length < config.maxPages`. -/
theorem crawlSite_maxPages (w : CrawlWorld)
    (sched : Nat → List (VisitItem × Option ExtractedPage) →
      List (VisitItem × Option ExtractedPage))
    (fuel : Nat) (cfg : AuditConfig) :
    match crawlSite w sched fuel cfg with
    | .ok r => r.pages.length ≤ cfg.maxPages
    | .error _ => True := by
  cases hc : crawlSite w sched fuel cfg with
  | error e => exact trivial
  | ok r =>
    simp only [crawlSite] at hc
    split at hc
    · exact absurd hc (by simp)
    · split at hc
      · exact absurd hc (by simp)
      · injection hc with h
        subst h
        show (((crawlLoop w sched cfg _ fuel _).pages.insertionSort
          (fun a b => strLe a.url b.url = true)).length ≤ cfg.maxPages)
        rw [(List.perm_insertionSort
          (fun a b : ExtractedPage => strLe a.url b.url = true) _).length_eq]
        exact crawlLoop_pages_le w sched cfg _ fuel _ (Nat.zero_le _)

/-- The default extraction signals named by the errored-page invariant. -/
def defaultSignals (p : ExtractedPage) : Prop :=
  p.title = none ∧ p.canonical = none ∧ p.metaDescription = none ∧
  p.headings = [] ∧ p.codeBlocks = [] ∧ p.internalLinks = [] ∧
  p.jsonLdTypes = [] ∧ p.faqItems = [] ∧ p.codeLanguages = [] ∧
  p.hasJsonLd = false ∧ p.hasFAQSchema = false ∧ p.hasOpenAPILink = false ∧
  p.hasPrerequisites = false ∧ p.internalLinkCount = 0 ∧
  p.externalLinkCount = 0 ∧ p.scriptCount = 0 ∧ p.htmlSize = 0 ∧
  p.textToHtmlRatio = 0 ∧ p.mainContent = ""

def erroredDefault (p : ExtractedPage) : Prop :=
  p.error ≠ none → defaultSignals p

theorem processUrl_ok (w : CrawlWorld) (item : VisitItem) (page : ExtractedPage)
    (h : (processUrl w item).2 = some page) : erroredDefault page := by
  simp only [processUrl] at h
  split at h
  · exact absurd h (by simp)
  · split at h
    · simp only [Option.some.injEq] at h
      subst h
      exact fun _ => ⟨rfl, rfl, rfl, rfl, rfl, rfl, rfl, rfl, rfl, rfl, rfl,
        rfl, rfl, rfl, rfl, rfl, rfl, rfl, rfl⟩
    · simp only [Option.some.injEq] at h
      subst h
      exact fun he => absurd rfl he

theorem acceptResult_pagesOK (w : CrawlWorld) (rt : String) (cfg : AuditConfig)
    (st : CrawlState) (r : VisitItem × Option ExtractedPage)
    (hr : ∀ page, r.2 = some page → erroredDefault page)
    (hst : ∀ p ∈ st.pages, erroredDefault p) :
    ∀ p ∈ (acceptResult w rt cfg st r).pages, erroredDefault p := by
  unfold acceptResult
  cases hr2 : r.2 with
  | none => exact hst
  | some page =>
    dsimp only
    split
    · split
      · rw [foldl_addLink_pages]
        intro p hp
        rcases List.mem_append.mp hp with hold | hnew
        · exact hst p hold
        · rw [List.mem_singleton.mp hnew]
          exact hr page hr2
      · intro p hp
        rcases List.mem_append.mp hp with hold | hnew
        · exact hst p hold
        · rw [List.mem_singleton.mp hnew]
          exact hr page hr2
    · exact hst

theorem foldl_accept_pagesOK (w : CrawlWorld) (rt : String) (cfg : AuditConfig)
    (rs : List (VisitItem × Option ExtractedPage)) (st : CrawlState)
    (hres : ∀ r ∈ rs, ∀ page, r.2 = some page → erroredDefault page)
    (hst : ∀ p ∈ st.pages, erroredDefault p) :
    ∀ p ∈ (rs.foldl (acceptResult w rt cfg) st).pages, erroredDefault p := by
  induction rs generalizing st with
  | nil => exact hst
  | cons r rs ih =>
    rw [List.foldl_cons]
    exact ih _ (fun r2 h2 => hres r2 (List.mem_cons_of_mem r h2))
      (acceptResult_pagesOK w rt cfg st r (hres r (List.mem_cons_self r rs)) hst)

theorem crawlLoop_pagesOK (w : CrawlWorld)
    (sched : Nat → List (VisitItem × Option ExtractedPage) →
      List (VisitItem × Option ExtractedPage))
    (hsched : ∀ n l, (sched n l).Perm l)
    (cfg : AuditConfig) (rt : String) (fuel : Nat) (st : CrawlState)
    (hst : ∀ p ∈ st.pages, erroredDefault p) :
    ∀ p ∈ (crawlLoop w sched cfg rt fuel st).pages, erroredDefault p := by
  induction fuel generalizing st with
  | zero => exact hst
  | succ fuel ih =>
    simp only [crawlLoop]
    split
    · exact hst
    · apply ih
      apply foldl_accept_pagesOK
      · intro r hrmem page hpage
        have h1 := (List.perm_insertionSort
          (fun a b : VisitItem × Option ExtractedPage =>
            strLe a.1.url b.1.url = true) _).subset hrmem
        have h2 := (hsched fuel _).subset h1
        obtain ⟨item, _, rfl⟩ := List.mem_map.mp h2
        exact processUrl_ok w item page hpage
      · exact hst

/-- C4: every page returned by `crawlSite` whose `error` field is set has all
derived extraction signals at their defaults and an empty `mainContent`:
`processUrl` builds errored pages from the all-defaults literal, and
`extractPageData` never sets `error`. -/
theorem crawlSite_errored_defaults (w : CrawlWorld)
    (sched : Nat → List (VisitItem × Option ExtractedPage) →
      List (VisitItem × Option ExtractedPage))
    (hsched : ∀ n l, (sched n l).Perm l)
    (fuel : Nat) (cfg : AuditConfig) (r : CrawlResult)
    (hr : crawlSite w sched fuel cfg = .ok r)
    (p : ExtractedPage) (hp : p ∈ r.pages) (he : p.error ≠ none) :
    defaultSignals p := by
  simp only [crawlSite] at hr
  split at hr
  · exact absurd hr (by simp)
  · split at hr
    · exact absurd hr (by simp)
    · injection hr with h
      subst h
      have hp2 : p ∈ (crawlLoop w sched cfg _ fuel _).pages :=
        (List.perm_insertionSort
          (fun a b : ExtractedPage => strLe a.url b.url = true) _).subset hp
      exact crawlLoop_pagesOK w sched hsched cfg _ fuel _
        (fun q hq => absurd hq (List.not_mem_nil q)) p hp2 he

/-- A concrete world whose root fetch returns a non-HTML content type, so the
only crawled page is an errored page. -/
def wErr : CrawlWorld :=
  { dns := fun _ => ["93.184.216.34"],
    resolve := fun l _ => l,
    net := fun _ _ => some ⟨200, none, some "text/plain", ""⟩,
    dom := fun _ _ =>
      ⟨none, none, none, [], [], [], "", [], false, [], false, none, false,
       0, [], 0⟩,
    sitemap := fun _ => [],
    urlJoin := fun l _ => some l }

def cfgErr : AuditConfig := ⟨"http://example.com/", 3, 3, 2⟩

/-- Witness: `crawlSite_errored_defaults` applied to the concrete world
`wErr`, whose crawl returns exactly one errored page. -/
theorem crawlSite_errored_defaults_witness :
    defaultSignals
      (errorPage "http://example.com/" "Non-HTML content type: text/plain") :=
  crawlSite_errored_defaults wErr (fun _ l => l) (fun _ _ => List.Perm.refl _)
    5 cfgErr
    ⟨[errorPage "http://example.com/" "Non-HTML content type: text/plain"],
     1, 0⟩
    rfl
    (errorPage "http://example.com/" "Non-HTML content type: text/plain")
    (List.mem_singleton.mpr rfl)
    (by decide)

theorem strLeList_total (a : List Char) :
    ∀ b : List Char, strLeList a b = true ∨ strLeList b a = true := by
  induction a with
  | nil => exact fun _ => .inl rfl
  | cons x xs ih =>
    intro b
    cases b with
    | nil => exact .inr rfl
    | cons y ys =>
      simp only [strLeList]
      rcases Nat.lt_trichotomy x.toNat y.toNat with h | h | h
      · left
        rw [if_pos h]
      · rw [if_neg (by omega), if_neg (by omega), if_neg (by omega),
          if_neg (by omega)]
        exact ih ys
      · right
        rw [if_pos h]

theorem strLeList_trans : ∀ {a b c : List Char}, strLeList a b = true →
    strLeList b c = true → strLeList a c = true := by
  intro a
  induction a with
  | nil => intro b c _ _; rfl
  | cons x xs ih =>
    intro b c hab hbc
    cases b with
    | nil => exact absurd hab (by simp [strLeList])
    | cons y ys =>
      cases c with
      | nil => exact absurd hbc (by simp [strLeList])
      | cons z zs =>
        simp only [strLeList] at hab hbc ⊢
        rcases Nat.lt_trichotomy x.toNat y.toNat with h1 | h1 | h1 <;>
          rcases Nat.lt_trichotomy y.toNat z.toNat with h2 | h2 | h2
        · rw [if_pos (by omega)]
        · rw [if_pos (by omega)]
        · rw [if_pos h1] at hab
          rw [if_neg (by omega), if_pos (by omega)] at hbc
          exact absurd hbc (by simp)
        · rw [if_pos (by omega)]
        · rw [if_neg (by omega), if_neg (by omega)]
          rw [if_neg (by omega), if_neg (by omega)] at hab
          rw [if_neg (by omega), if_neg (by omega)] at hbc
          exact ih hab hbc
        · rw [if_neg (by omega), if_pos (by omega)] at hbc
          exact absurd hbc (by simp)
        · rw [if_neg (by omega), if_pos (by omega)] at hab
          exact absurd hab (by simp)
        · rw [if_neg (by omega), if_pos (by omega)] at hab
          exact absurd hab (by simp)
        · rw [if_neg (by omega), if_pos (by omega)] at hab
          exact absurd hab (by simp)

theorem strLeList_antisymm : ∀ {a b : List Char}, strLeList a b = true →
    strLeList b a = true → a = b := by
  intro a
  induction a with
  | nil =>
    intro b _ hba
    cases b with
    | nil => rfl
    | cons y ys => exact absurd hba (by simp [strLeList])
  | cons x xs ih =>
    intro b hab hba
    cases b with
    | nil => exact absurd hab (by simp [strLeList])
    | cons y ys =>
      simp only [strLeList] at hab hba
      rcases Nat.lt_trichotomy x.toNat y.toNat with h1 | h1 | h1
      · rw [if_neg (by omega), if_pos h1] at hba
        exact absurd hba (by simp)
      · rw [if_neg (by omega), if_neg (by omega)] at hab
        rw [if_neg (by omega), if_neg (by omega)] at hba
        have hx : x = y := by
          unfold Char.toNat at h1
          exact Char.ext (UInt32.ext h1)
        rw [hx, ih hab hba]
      · rw [if_neg (by omega), if_pos h1] at hab
        exact absurd hab (by simp)

theorem strLe_total (a b : String) : strLe a b = true ∨ strLe b a = true :=
  strLeList_total a.data b.data

theorem strLe_trans {a b c : String} (hab : strLe a b = true)
    (hbc : strLe b c = true) : strLe a c = true :=
  strLeList_trans hab hbc

theorem strLe_antisymm {a b : String} (hab : strLe a b = true)
    (hba : strLe b a = true) : a = b := by
  cases a with
  | mk as =>
    cases b with
    | mk bs => exact congrArg String.mk (strLeList_antisymm hab hba)

/-- Two sorted permutations of a list with pairwise-distinct string keys are
equal: the sort result does not depend on the input order. -/
theorem sorted_perm_eq_of_nodup_keys {α : Type} (key : α → String) :
    ∀ {l₁ l₂ : List α}, l₁.Perm l₂ →
      l₁.Sorted (fun a b => strLe (key a) (key b) = true) →
      l₂.Sorted (fun a b => strLe (key a) (key b) = true) →
      (l₁.map key).Nodup → l₁ = l₂ := by
  intro l₁
  induction l₁ with
  | nil =>
    intro l₂ hp _ _ _
    exact (List.perm_nil.mp hp.symm).symm
  | cons a t₁ ih =>
    intro l₂ hp hs₁ hs₂ hnd
    cases l₂ with
    | nil => exact absurd hp (by simp)
    | cons b t₂ =>
      have hab : a = b := by
        by_contra hne
        have hbmem : b ∈ a :: t₁ := hp.symm.subset (List.mem_cons_self b t₂)
        have hamem : a ∈ b :: t₂ := hp.subset (List.mem_cons_self a t₁)
        have hbt₁ : b ∈ t₁ := by
          rcases List.mem_cons.mp hbmem with h | h
          · exact absurd h.symm hne
          · exact h
        have hat₂ : a ∈ t₂ := by
          rcases List.mem_cons.mp hamem with h | h
          · exact absurd h hne
          · exact h
        have h1 : strLe (key a) (key b) = true :=
          (List.sorted_cons.mp hs₁).1 b hbt₁
        have h2 : strLe (key b) (key a) = true :=
          (List.sorted_cons.mp hs₂).1 a hat₂
        have hkey : key a = key b := strLe_antisymm h1 h2
        have : key b ∈ t₁.map key := List.mem_map_of_mem key hbt₁
        rw [← hkey] at this
        exact (List.nodup_cons.mp hnd).1 this
      subst hab
      have hpt : t₁.Perm t₂ := hp.cons_inv
      have := ih hpt (List.sorted_cons.mp hs₁).2 (List.sorted_cons.mp hs₂).2
        (List.nodup_cons.mp hnd).2
      rw [this]

/-- The frontier invariant: the queued URLs are pairwise distinct and every
queued URL has already been added to `visited`. -/
def InvKeys (st : CrawlState) : Prop :=
  (st.toVisit.map (fun i => i.url)).Nodup ∧
    ∀ i ∈ st.toVisit, i.url ∈ st.visited

theorem processUrl_fst (w : CrawlWorld) (item : VisitItem) :
    (processUrl w item).1 = item := by
  unfold processUrl
  dsimp only
  split
  · rfl
  · split <;> rfl

theorem addLink_inv (w : CrawlWorld) (rt : String) (mp d : Nat) (b : String)
    (st : CrawlState) (link : String) (h : InvKeys st) :
    InvKeys (addLink w rt mp d b st link) := by
  unfold addLink
  cases normalizeUrlFrom w link b with
  | none => exact h
  | some n =>
    dsimp only
    split
    · next hcond =>
      simp only [Bool.and_eq_true, Bool.not_eq_true'] at hcond
      have hnv : n ∉ st.visited := by simpa using hcond.1.2
      constructor
      · rw [List.map_append]
        rw [List.nodup_append]
        refine ⟨h.1, by simp, ?_⟩
        intro x hx hx2
        simp only [List.map_cons, List.map_nil, List.mem_singleton] at hx2
        subst hx2
        obtain ⟨i, hi, hiu⟩ := List.mem_map.mp hx
        exact hnv (hiu ▸ h.2 i hi)
      · intro i hi
        rcases List.mem_append.mp hi with hold | hnew
        · exact List.mem_cons_of_mem n (h.2 i hold)
        · rw [List.mem_singleton.mp hnew]
          exact List.mem_cons_self n st.visited
    · exact h

theorem foldl_addLink_inv (w : CrawlWorld) (rt : String) (mp d : Nat)
    (b : String) (links : List String) (st : CrawlState) (h : InvKeys st) :
    InvKeys (links.foldl (addLink w rt mp d b) st) := by
  induction links generalizing st with
  | nil => exact h
  | cons l ls ih =>
    rw [List.foldl_cons]
    exact ih _ (addLink_inv w rt mp d b st l h)

theorem acceptResult_inv (w : CrawlWorld) (rt : String) (cfg : AuditConfig)
    (st : CrawlState) (r : VisitItem × Option ExtractedPage) (h : InvKeys st) :
    InvKeys (acceptResult w rt cfg st r) := by
  unfold acceptResult
  cases r.2 with
  | none => exact h
  | some page =>
    dsimp only
    split
    · split
      · exact foldl_addLink_inv w rt cfg.maxPages r.1.depth r.1.url
          page.internalLinks _ h
      · exact h
    · exact h

theorem foldl_accept_inv (w : CrawlWorld) (rt : String) (cfg : AuditConfig)
    (rs : List (VisitItem × Option ExtractedPage)) (st : CrawlState)
    (h : InvKeys st) :
    InvKeys (rs.foldl (acceptResult w rt cfg) st) := by
  induction rs generalizing st with
  | nil => exact h
  | cons r rs ih =>
    rw [List.foldl_cons]
    exact ih _ (acceptResult_inv w rt cfg st r h)

theorem rest_inv (st : CrawlState) (k : Nat) (h : InvKeys st) :
    (((st.toVisit.insertionSort
        (fun a b => strLe a.url b.url = true)).drop k).map
      (fun i => i.url)).Nodup ∧
    ∀ i ∈ (st.toVisit.insertionSort
        (fun a b => strLe a.url b.url = true)).drop k,
      i.url ∈ st.visited := by
  have hperm := List.perm_insertionSort
    (fun a b : VisitItem => strLe a.url b.url = true) st.toVisit
  have hnd : ((st.toVisit.insertionSort
      (fun a b => strLe a.url b.url = true)).map (fun i => i.url)).Nodup :=
    ((hperm.map (fun i => i.url)).nodup_iff).mpr h.1
  constructor
  · rw [List.map_drop]
    exact hnd.sublist (List.drop_sublist k _)
  · intro i hi
    exact h.2 i (hperm.subset ((List.drop_subset k _) hi))

theorem batch_keys_nodup (w : CrawlWorld) (st : CrawlState) (k : Nat)
    (h : InvKeys st) :
    ((((st.toVisit.insertionSort
        (fun a b => strLe a.url b.url = true)).take k).map
      (processUrl w)).map (fun r => r.1.url)).Nodup := by
  have hperm := List.perm_insertionSort
    (fun a b : VisitItem => strLe a.url b.url = true) st.toVisit
  have hnd : ((st.toVisit.insertionSort
      (fun a b => strLe a.url b.url = true)).map (fun i => i.url)).Nodup :=
    ((hperm.map (fun i => i.url)).nodup_iff).mpr h.1
  rw [List.map_map]
  have hcongr : (((st.toVisit.insertionSort
      (fun a b => strLe a.url b.url = true)).take k).map
      ((fun r : VisitItem × Option ExtractedPage => r.1.url) ∘ processUrl w)) =
      (((st.toVisit.insertionSort
      (fun a b => strLe a.url b.url = true)).take k).map (fun i => i.url)) := by
    apply List.map_congr_left
    intro i _
    show (processUrl w i).1.url = i.url
    rw [processUrl_fst]
  rw [hcongr, List.map_take]
  exact hnd.sublist (List.take_sublist k _)

theorem insertionSort_sched_eq
    (sched : Nat → List (VisitItem × Option ExtractedPage) →
      List (VisitItem × Option ExtractedPage))
    (hsched : ∀ n l, (sched n l).Perm l) (n : Nat)
    (res : List (VisitItem × Option ExtractedPage))
    (hnodup : (res.map (fun r => r.1.url)).Nodup) :
    (sched n res).insertionSort (fun a b => strLe a.1.url b.1.url = true) =
    res.insertionSort (fun a b => strLe a.1.url b.1.url = true) := by
  haveI : IsTotal (VisitItem × Option ExtractedPage)
      (fun a b => strLe a.1.url b.1.url = true) :=
    ⟨fun a b => strLe_total _ _⟩
  haveI : IsTrans (VisitItem × Option ExtractedPage)
      (fun a b => strLe a.1.url b.1.url = true) :=
    ⟨fun _ _ _ hab hbc => strLe_trans hab hbc⟩
  apply sorted_perm_eq_of_nodup_keys
    (fun r : VisitItem × Option ExtractedPage => r.1.url)
  · exact ((List.perm_insertionSort
        (fun a b : VisitItem × Option ExtractedPage =>
          strLe a.1.url b.1.url = true) (sched n res)).trans
      (hsched n res)).trans
      (List.perm_insertionSort
        (fun a b : VisitItem × Option ExtractedPage =>
          strLe a.1.url b.1.url = true) res).symm
  · exact List.sorted_insertionSort _ _
  · exact List.sorted_insertionSort _ _
  · exact (((List.perm_insertionSort
        (fun a b : VisitItem × Option ExtractedPage =>
          strLe a.1.url b.1.url = true) (sched n res)).trans
      (hsched n res)).map
      (fun r => r.1.url)).nodup_iff.mpr hnodup

theorem countErrored_sched
    (sched : Nat → List (VisitItem × Option ExtractedPage) →
      List (VisitItem × Option ExtractedPage))
    (hsched : ∀ n l, (sched n l).Perm l) (n : Nat)
    (res : List (VisitItem × Option ExtractedPage)) :
    countErrored (sched n res) = countErrored res := by
  show (sched n res).countP _ = res.countP _
  exact (hsched n res).countP_eq _

theorem countSkipped_sched
    (sched : Nat → List (VisitItem × Option ExtractedPage) →
      List (VisitItem × Option ExtractedPage))
    (hsched : ∀ n l, (sched n l).Perm l) (n : Nat)
    (res : List (VisitItem × Option ExtractedPage)) :
    countSkipped (sched n res) = countSkipped res := by
  show (sched n res).countP _ = res.countP _
  exact (hsched n res).countP_eq _

/-- The crawl loop computes the same state under any arrival schedule as under
the order-preserving one: each batch has pairwise-distinct URLs, so re-sorting
the batch results cancels the arrival permutation. -/
theorem crawlLoop_sched_canon (w : CrawlWorld)
    (sched : Nat → List (VisitItem × Option ExtractedPage) →
      List (VisitItem × Option ExtractedPage))
    (hsched : ∀ n l, (sched n l).Perm l)
    (cfg : AuditConfig) (rt : String) :
    ∀ (fuel : Nat) (st : CrawlState), InvKeys st →
      crawlLoop w sched cfg rt fuel st =
        crawlLoop w (fun _ l => l) cfg rt fuel st := by
  intro fuel
  induction fuel with
  | zero => intro st _; rfl
  | succ fuel ih =>
    intro st hinv
    simp only [crawlLoop]
    split
    · rfl
    · rw [insertionSort_sched_eq sched hsched fuel _
        (batch_keys_nodup w st (min cfg.concurrency
          (cfg.maxPages - st.pages.length)) hinv),
        countErrored_sched sched hsched fuel _,
        countSkipped_sched sched hsched fuel _]
      exact ih _ (foldl_accept_inv w rt cfg _ _
        ⟨(rest_inv st (min cfg.concurrency
            (cfg.maxPages - st.pages.length)) hinv).1,
         (rest_inv st (min cfg.concurrency
            (cfg.maxPages - st.pages.length)) hinv).2⟩)

def InvSeed (acc : List String × List VisitItem) : Prop :=
  (acc.2.map (fun i => i.url)).Nodup ∧ ∀ i ∈ acc.2, i.url ∈ acc.1

theorem addSeed_inv (rt : String) (acc : List String × List VisitItem)
    (url : String) (h : InvSeed acc) : InvSeed (addSeed rt acc url) := by
  unfold addSeed
  cases normalizeUrl url with
  | none => exact h
  | some n =>
    dsimp only
    split
    · next hcond =>
      simp only [Bool.and_eq_true, Bool.not_eq_true'] at hcond
      have hnv : n ∉ acc.1 := by simpa using hcond.2
      constructor
      · rw [List.map_append, List.nodup_append]
        refine ⟨h.1, by simp, ?_⟩
        intro x hx hx2
        simp only [List.map_cons, List.map_nil, List.mem_singleton] at hx2
        subst hx2
        obtain ⟨i, hi, hiu⟩ := List.mem_map.mp hx
        exact hnv (hiu ▸ h.2 i hi)
      · intro i hi
        rcases List.mem_append.mp hi with hold | hnew
        · exact List.mem_cons_of_mem n (h.2 i hold)
        · rw [List.mem_singleton.mp hnew]
          exact List.mem_cons_self n acc.1
    · exact h

theorem foldl_addSeed_inv (rt : String) (urls : List String)
    (acc : List String × List VisitItem) (h : InvSeed acc) :
    InvSeed (urls.foldl (addSeed rt) acc) := by
  induction urls generalizing acc with
  | nil => exact h
  | cons u us ih =>
    rw [List.foldl_cons]
    exact ih _ (addSeed_inv rt acc u h)

theorem seedLoop_inv (w : CrawlWorld) (rt : String) (sitemaps : List String)
    (acc : List String × List VisitItem) (h : InvSeed acc) :
    InvSeed (seedLoop w rt sitemaps acc) := by
  induction sitemaps generalizing acc with
  | nil => exact h
  | cons s rest ih =>
    simp only [seedLoop]
    split
    · exact foldl_addSeed_inv rt _ acc h
    · exact ih _ (foldl_addSeed_inv rt _ acc h)

theorem root_push_inv (rt : String) (seeded : List String × List VisitItem)
    (h : InvSeed seeded) :
    InvSeed (match normalizeUrl rt with
      | some rn =>
        if ! seeded.1.contains rn then
          (rn :: seeded.1, (⟨rn, 0⟩ : VisitItem) :: seeded.2)
        else seeded
      | none => seeded) := by
  cases normalizeUrl rt with
  | none => exact h
  | some rn =>
    dsimp only
    split
    · next hcond =>
      have hrn : rn ∉ seeded.1 := by simpa using hcond
      constructor
      · rw [List.map_cons, List.nodup_cons]
        refine ⟨?_, h.1⟩
        intro hmem
        obtain ⟨i, hi, hiu⟩ := List.mem_map.mp hmem
        have hiu2 : i.url = rn := hiu
        exact hrn (hiu2 ▸ h.2 i hi)
      · intro i hi
        rcases List.mem_cons.mp hi with hhd | htl
        · rw [hhd]
          exact List.mem_cons_self rn seeded.1
        · exact List.mem_cons_of_mem rn (h.2 i htl)
    · exact h

/-- C5: for a fixed site snapshot (the oracles in `w`) and a fixed config, the
crawl output is independent of the arrival order of network responses, and on
success the returned pages list is sorted by URL. -/
theorem crawlSite_deterministic (w : CrawlWorld)
    (sched₁ sched₂ : Nat → List (VisitItem × Option ExtractedPage) →
      List (VisitItem × Option ExtractedPage))
    (h₁ : ∀ n l, (sched₁ n l).Perm l) (h₂ : ∀ n l, (sched₂ n l).Perm l)
    (fuel : Nat) (cfg : AuditConfig) :
    crawlSite w sched₁ fuel cfg = crawlSite w sched₂ fuel cfg ∧
    ∀ r, crawlSite w sched₁ fuel cfg = .ok r →
      r.pages.Sorted (fun a b => strLe a.url b.url = true) := by
  constructor
  · simp only [crawlSite]
    split
    · rfl
    · split
      · rfl
      · next rootUrl heq =>
        have hseed := root_push_inv rootUrl
          (seedLoop w rootUrl (getSitemapUrls rootUrl) ([], []))
          (seedLoop_inv w rootUrl (getSitemapUrls rootUrl) ([], [])
            ⟨List.nodup_nil, by intro i hi; exact absurd hi (List.not_mem_nil i)⟩)
        rw [crawlLoop_sched_canon w sched₁ h₁ cfg rootUrl fuel _
            ⟨hseed.1, hseed.2⟩,
          crawlLoop_sched_canon w sched₂ h₂ cfg rootUrl fuel _
            ⟨hseed.1, hseed.2⟩]
  · intro r hr
    simp only [crawlSite] at hr
    split at hr
    · exact absurd hr (by simp)
    · split at hr
      · exact absurd hr (by simp)
      · injection hr with h
        subst h
        haveI : IsTotal ExtractedPage
            (fun a b => strLe a.url b.url = true) :=
          ⟨fun a b => strLe_total _ _⟩
        haveI : IsTrans ExtractedPage
            (fun a b => strLe a.url b.url = true) :=
          ⟨fun _ _ _ hab hbc => strLe_trans hab hbc⟩
        exact List.sorted_insertionSort _ _

/-- Witness: `crawlSite_deterministic` applied to the concrete world `wErr`
with the order-preserving and the batch-reversing arrival schedules. -/
theorem crawlSite_deterministic_witness :
    crawlSite wErr (fun _ l => l.reverse) 5 cfgErr =
      crawlSite wErr (fun _ l => l) 5 cfgErr ∧
    (⟨[errorPage "http://example.com/" "Non-HTML content type: text/plain"],
        1, 0⟩ : CrawlResult).pages.Sorted
      (fun a b => strLe a.url b.url = true) :=
  ⟨(crawlSite_deterministic wErr (fun _ l => l.reverse) (fun _ l => l)
      (fun _ l => l.reverse_perm) (fun _ l => List.Perm.refl l) 5 cfgErr).1,
   (crawlSite_deterministic wErr (fun _ l => l.reverse) (fun _ l => l)
      (fun _ l => l.reverse_perm) (fun _ l => List.Perm.refl l) 5 cfgErr).2
     ⟨[errorPage "http://example.com/" "Non-HTML content type: text/plain"],
      1, 0⟩ rfl⟩

end DAIDS
